import Mathlib

/-!
Shallow embedding of the chess engine under verification
(`Engine/gameState.py`, `AI/moveFinder.py`).

Board cells are the two-character Python strings ("wp", "bK", "--"),
modelled as pairs of characters; `piece[0]` is the colour component and
`piece[1]` the kind component, exactly as the source indexes them.
Coordinates are integers, as in the source, where bounds checks such as
`0 <= endRow < 8` compare possibly negative values.  Out-of-range board
reads return the empty cell and out-of-range writes are dropped; the
engine only reads and writes in range on its own state space.
-/

set_option autoImplicit false
set_option maxRecDepth 100000
set_option maxHeartbeats 2000000

namespace Chess

/-- The content of one board square: colour character and kind character. -/
abbrev Cell := Char × Char

/-- The empty square, written "--" in the source. -/
def emptyCell : Cell := ('-', '-')

/-- The board: a list of 8 rows of 8 cells, mirroring the nested Python lists. -/
abbrev Board := List (List Cell)

/-- An entry of `self.pins`: pinned square row, col and the pin ray direction. -/
abbrev Pin := Int × Int × Int × Int

/-- An entry of `self.checks`: attacker square row, col and the check ray direction. -/
abbrev Chk := Int × Int × Int × Int

/-- Read `board[r][c]`; the empty cell for out-of-range coordinates. -/
def getSq (b : Board) (r c : Int) : Cell :=
  if 0 ≤ r ∧ 0 ≤ c then (b.getD r.toNat []).getD c.toNat emptyCell else emptyCell

/-- Write `board[r][c] = v`; dropped for out-of-range coordinates. -/
def setSq (b : Board) (r c : Int) (v : Cell) : Board :=
  if 0 ≤ r ∧ 0 ≤ c then b.set r.toNat ((b.getD r.toNat []).set c.toNat v) else b

/-- The four castling-right booleans, in the constructor order of the
source class `CastleRights(wks, bks, wqs, bqs)`. -/
structure CastleRights where
  wks : Bool
  bks : Bool
  wqs : Bool
  bqs : Bool
deriving DecidableEq, Repr

/-- Modelled from the spec: the `Move` value class lives in `Engine/move.py`,
which is not among the provided sources.  Per the spec data model a move
holds start square, end square, moving piece, optionally captured piece and
the flags isCapture / isEnPassant / isCastle / isPromotion plus the chosen
promoted kind (queen by default; the UI may overwrite it for a human player). -/
structure Move where
  startRow : Int
  startCol : Int
  endRow : Int
  endCol : Int
  pieceMoved : Cell
  pieceCaptured : Cell
  isPawnPromotion : Bool
  promotedPiece : Char
  isEnpassantMove : Bool
  isCastleMove : Bool
  isCapture : Bool
deriving DecidableEq, Repr

/-- Modelled from the spec: the `Move` constructor
`Move(startSq, endSq, board, isPawnPromotion=…, isEnpassantMove=…, isCastleMove=…)`.
It reads the moved piece from the start square and the captured piece from the
end square; for an en-passant capture the captured piece is the enemy pawn. -/
def mkMove (b : Board) (st en : Int × Int) (pp ep ca : Bool) : Move :=
  let pm := getSq b st.1 st.2
  let pc := if ep then (if pm = ('b', 'p') then (('w', 'p') : Cell) else ('b', 'p'))
            else getSq b en.1 en.2
  { startRow := st.1, startCol := st.2, endRow := en.1, endCol := en.2
    pieceMoved := pm, pieceCaptured := pc
    isPawnPromotion := pp, promotedPiece := 'Q'
    isEnpassantMove := ep, isCastleMove := ca
    isCapture := pc ≠ emptyCell }

/-- Move equality as the spec defines it: start, end and promotion choice. -/
def moveEq (a b : Move) : Bool :=
  a.startRow = b.startRow ∧ a.startCol = b.startCol ∧
  a.endRow = b.endRow ∧ a.endCol = b.endCol ∧ a.promotedPiece = b.promotedPiece

/-- The mutable engine state of class `GameState`. -/
structure GameState where
  board : Board
  whiteToMove : Bool
  moveLog : List Move
  whiteKingLocation : Int × Int
  blackKingLocation : Int × Int
  checkmate : Bool
  stalemate : Bool
  inCheck : Bool
  pins : List Pin
  checks : List Chk
  boardHistory : List (Board × Bool)
  enpassantPossible : Option (Int × Int)
  enpassantPossibleLog : List (Option (Int × Int))
  currentCastlingRights : CastleRights
  castleRightLog : List CastleRights
deriving DecidableEq, Repr

/-- The position fingerprint `str(self.board) + str(self.whiteToMove)`:
`str` is determined by the board contents and the side to move, so the
fingerprint is modelled by that pair. -/
def boardHashOf (s : GameState) : Board × Bool := (s.board, s.whiteToMove)

/-- The starting board of `GameState.__init__`. -/
def initialBoard : Board :=
  [ [('b','R'), ('b','N'), ('b','B'), ('b','Q'), ('b','K'), ('b','B'), ('b','N'), ('b','R')],
    [('b','p'), ('b','p'), ('b','p'), ('b','p'), ('b','p'), ('b','p'), ('b','p'), ('b','p')],
    [('-','-'), ('-','-'), ('-','-'), ('-','-'), ('-','-'), ('-','-'), ('-','-'), ('-','-')],
    [('-','-'), ('-','-'), ('-','-'), ('-','-'), ('-','-'), ('-','-'), ('-','-'), ('-','-')],
    [('-','-'), ('-','-'), ('-','-'), ('-','-'), ('-','-'), ('-','-'), ('-','-'), ('-','-')],
    [('-','-'), ('-','-'), ('-','-'), ('-','-'), ('-','-'), ('-','-'), ('-','-'), ('-','-')],
    [('w','p'), ('w','p'), ('w','p'), ('w','p'), ('w','p'), ('w','p'), ('w','p'), ('w','p')],
    [('w','R'), ('w','N'), ('w','B'), ('w','Q'), ('w','K'), ('w','B'), ('w','N'), ('w','R')] ]

/-- The state built by `GameState.__init__`. -/
def initialGameState : GameState :=
  { board := initialBoard
    whiteToMove := true
    moveLog := []
    whiteKingLocation := (7, 4)
    blackKingLocation := (0, 4)
    checkmate := false
    stalemate := false
    inCheck := false
    pins := []
    checks := []
    boardHistory := []
    enpassantPossible := none
    enpassantPossibleLog := [none]
    currentCastlingRights := ⟨true, true, true, true⟩
    castleRightLog := [⟨true, true, true, true⟩] }

/-- Python `range(a, b)` over integers. -/
def intRange (a b : Int) : List Int :=
  (List.range (b - a).toNat).map (fun i => a + (i : Int))

/-- Python `range(a, b, -1)` over integers: `a, a-1, …, b+1`. -/
def intRangeDown (a b : Int) : List Int :=
  (List.range (a - b).toNat).map (fun i => a - (i : Int))

/-- Loop counters `range(1, 8)` of the ray scans. -/
def oneToSeven : List Int := [1, 2, 3, 4, 5, 6, 7]

/-- The eight ray directions of `checkForPinsAndChecks`, in source order. -/
def cfpacDirections : List (Int × Int) :=
  [(-1, 0), (0, -1), (1, 0), (0, 1), (-1, -1), (-1, 1), (1, -1), (1, 1)]

/-- The knight offsets of `checkForPinsAndChecks`, in source order. -/
def cfpacKnightMoves : List (Int × Int) :=
  [(1, 2), (1, -2), (-1, 2), (-1, -2), (2, 1), (2, -1), (-2, 1), (-2, -1)]

/-- One ray of `checkForPinsAndChecks`: walks outward from the king along
direction `(dr, dc)` (the `j`-th direction), tracking the candidate pin, and
reports the check or the confirmed pin this ray produces, if any. -/
def rayScan (b : Board) (enemy ally : Char) (sr sc : Int) (j : Nat)
    (dr dc : Int) : List Int → Option Pin → Option (Chk ⊕ Pin)
  | [], _ => none
  | i :: is, possiblePin =>
    let er := sr + dr * i
    let ec := sc + dc * i
    if 0 ≤ er ∧ er < 8 ∧ 0 ≤ ec ∧ ec < 8 then
      let endPiece := getSq b er ec
      if endPiece.1 = ally ∧ endPiece.2 ≠ 'K' then
        match possiblePin with
        | none => rayScan b enemy ally sr sc j dr dc is (some (er, ec, dr, dc))
        | some _ => none
      else if endPiece.1 = enemy then
        let t := endPiece.2
        if (j ≤ 3 ∧ t = 'R') ∨ (4 ≤ j ∧ j ≤ 7 ∧ t = 'B') ∨
            (i = 1 ∧ t = 'p' ∧ ((enemy = 'w' ∧ 6 ≤ j ∧ j ≤ 7) ∨ (enemy = 'b' ∧ 4 ≤ j ∧ j ≤ 5))) ∨
            t = 'Q' ∨ (i = 1 ∧ t = 'K') then
          match possiblePin with
          | none => some (Sum.inl (er, ec, dr, dc))
          | some pin => some (Sum.inr pin)
        else none
      else rayScan b enemy ally sr sc j dr dc is possiblePin
    else none

/-- Method `checkForPinsAndChecks`: returns `(inCheck, pins, checks)` for the
side to move, from rays out of its king plus the knight-offset probes. -/
def checkForPinsAndChecks (s : GameState) : Bool × List Pin × List Chk :=
  let (enemy, ally, startRow, startCol) :=
    if s.whiteToMove then ('b', 'w', s.whiteKingLocation.1, s.whiteKingLocation.2)
    else ('w', 'b', s.blackKingLocation.1, s.blackKingLocation.2)
  let raysOut := (List.range 8).foldl
    (fun (acc : Bool × List Pin × List Chk) j =>
      let d := cfpacDirections.getD j (0, 0)
      match rayScan s.board enemy ally startRow startCol j d.1 d.2 oneToSeven none with
      | none => acc
      | some (Sum.inl chk) => (true, acc.2.1, acc.2.2 ++ [chk])
      | some (Sum.inr pin) => (acc.1, acc.2.1 ++ [pin], acc.2.2))
    (false, [], [])
  cfpacKnightMoves.foldl
    (fun (acc : Bool × List Pin × List Chk) m =>
      let er := startRow + m.1
      let ec := startCol + m.2
      if 0 ≤ er ∧ er < 8 ∧ 0 ≤ ec ∧ ec < 8 then
        let endPiece := getSq s.board er ec
        if endPiece.1 = enemy ∧ endPiece.2 = 'N' then
          (true, acc.2.1, acc.2.2 ++ [(er, ec, m.1, m.2)])
        else acc
      else acc)
    raysOut

/-- Search `self.pins` from the end for an entry at square `(r, c)`,
as the reversed index loops of the piece generators do. -/
def findPinRev (pins : List Pin) (r c : Int) : Option Pin :=
  pins.reverse.find? (fun p => p.1 == r && p.2.1 == c)

/-- Python `list.remove`: drop the first element equal to `p`. -/
def removeFirstPin : List Pin → Pin → List Pin
  | [], _ => []
  | q :: qs, p => if q = p then qs else q :: removeFirstPin qs p

/-- The en-passant rank-exposure scan of `getPawnMove`: walk the inside range
for blockers and the outside range for an attacking enemy rook or queen. -/
def epRankScan (b : Board) (r : Int) (enemyColor : Char) (inside outside : List Int) :
    Bool × Bool :=
  let blocking := inside.foldl (fun acc i => if getSq b r i ≠ emptyCell then true else acc) false
  outside.foldl
    (fun (acc : Bool × Bool) i =>
      let square := getSq b r i
      if square.1 = enemyColor ∧ (square.2 = 'R' ∨ square.2 = 'Q') then (true, acc.2)
      else if square ≠ emptyCell then (acc.1, true)
      else acc)
    (false, blocking)

/-- The forward-push section of method `getPawnMove`: the single push with
promotion at the back row, then the guarded double push from the start row. -/
def pawnForwardStage (b : Board) (r c moveAmount startRow backRow : Int)
    (piecePinned : Bool) (pinDirection : Option (Int × Int))
    (moves : List Move) (pawnPromotion : Bool) : List Move × Bool :=
  if getSq b (r + moveAmount) c = emptyCell then
    if ¬piecePinned ∨ pinDirection = some (moveAmount, 0) then
      let pawnPromotion := if r + moveAmount = backRow then true else pawnPromotion
      let moves := moves ++ [mkMove b (r, c) (r + moveAmount, c) pawnPromotion false false]
      let moves :=
        if r = startRow ∧ getSq b (r + 2 * moveAmount) c = emptyCell then
          moves ++ [mkMove b (r, c) (r + 2 * moveAmount, c) false false false]
        else moves
      (moves, pawnPromotion)
    else (moves, pawnPromotion)
  else (moves, pawnPromotion)

/-- The left-capture section of method `getPawnMove`: an ordinary capture
toward column `c - 1`, or the en-passant capture with the rank-scan guard. -/
def pawnCaptureLeft (s : GameState) (r c moveAmount backRow : Int) (enemyColor : Char)
    (kingRow kingCol : Int) (piecePinned : Bool) (pinDirection : Option (Int × Int))
    (moves : List Move) (pawnPromotion : Bool) : List Move × Bool :=
  let b := s.board
  if c - 1 ≥ 0 then
    if ¬piecePinned ∨ pinDirection = some (moveAmount, -1) then
      if (getSq b (r + moveAmount) (c - 1)).1 = enemyColor then
        let pawnPromotion := if r + moveAmount = backRow then true else pawnPromotion
        (moves ++ [mkMove b (r, c) (r + moveAmount, c - 1) pawnPromotion false false],
          pawnPromotion)
      else if some ((r + moveAmount, c - 1) : Int × Int) = s.enpassantPossible then
        let scan :=
          if kingRow = r then
            if kingCol < c then
              epRankScan b r enemyColor (intRange (kingCol + 1) (c - 1)) (intRange (c + 1) 8)
            else
              epRankScan b r enemyColor (intRange (c + 1) kingCol) (intRangeDown (c - 2) (-1))
          else (false, false)
        if ¬scan.1 ∨ scan.2 then
          (moves ++ [mkMove b (r, c) (r + moveAmount, c - 1) false true false], pawnPromotion)
        else (moves, pawnPromotion)
      else (moves, pawnPromotion)
    else (moves, pawnPromotion)
  else (moves, pawnPromotion)

/-- The right-capture section of method `getPawnMove`. -/
def pawnCaptureRight (s : GameState) (r c moveAmount backRow : Int) (enemyColor : Char)
    (kingRow kingCol : Int) (piecePinned : Bool) (pinDirection : Option (Int × Int))
    (moves : List Move) (pawnPromotion : Bool) : List Move :=
  let b := s.board
  if c + 1 ≤ 7 then
    if ¬piecePinned ∨ pinDirection = some (moveAmount, 1) then
      if (getSq b (r + moveAmount) (c + 1)).1 = enemyColor then
        let pawnPromotion := if r + moveAmount = backRow then true else pawnPromotion
        moves ++ [mkMove b (r, c) (r + moveAmount, c + 1) pawnPromotion false false]
      else if some ((r + moveAmount, c + 1) : Int × Int) = s.enpassantPossible then
        let scan :=
          if kingRow = r then
            if kingCol < c then
              epRankScan b r enemyColor (intRange (kingCol + 1) c) (intRange (c + 2) 8)
            else
              epRankScan b r enemyColor (intRange (c + 2) kingCol) (intRangeDown (c - 1) (-1))
          else (false, false)
        if ¬scan.1 ∨ scan.2 then
          moves ++ [mkMove b (r, c) (r + moveAmount, c + 1) false true false]
        else moves
      else moves
    else moves
  else moves

/-- Method `getPawnMove`: forward pushes, captures, promotions and the guarded
en-passant captures, in the three source sections; returns the extended move
list and the remaining pins. -/
def getPawnMove (s : GameState) (r c : Int) (moves : List Move) : List Move × List Pin :=
  let found := findPinRev s.pins r c
  let piecePinned := found.isSome
  let pinDirection : Option (Int × Int) := found.map (fun p => (p.2.2.1, p.2.2.2))
  let pins := match found with
    | some p => removeFirstPin s.pins p
    | none => s.pins
  let moveAmount : Int := if s.whiteToMove then -1 else 1
  let startRow : Int := if s.whiteToMove then 6 else 1
  let backRow : Int := if s.whiteToMove then 0 else 7
  let enemyColor := if s.whiteToMove then 'b' else 'w'
  let kingRow := if s.whiteToMove then s.whiteKingLocation.1 else s.blackKingLocation.1
  let kingCol := if s.whiteToMove then s.whiteKingLocation.2 else s.blackKingLocation.2
  let res1 := pawnForwardStage s.board r c moveAmount startRow backRow piecePinned
    pinDirection moves false
  let res2 := pawnCaptureLeft s r c moveAmount backRow enemyColor kingRow kingCol
    piecePinned pinDirection res1.1 res1.2
  let moves3 := pawnCaptureRight s r c moveAmount backRow enemyColor kingRow kingCol
    piecePinned pinDirection res2.1 res2.2
  (moves3, pins)

/-- The knight offsets of `getKnightMove`, in source order. -/
def knightOffsets : List (Int × Int) :=
  [(-1, -2), (-1, 2), (-2, -1), (-2, 1), (1, -2), (1, 2), (2, -1), (2, 1)]

/-- Method `getKnightMove`: a pinned knight generates nothing. -/
def getKnightMove (s : GameState) (r c : Int) (moves : List Move) : List Move × List Pin :=
  let found := findPinRev s.pins r c
  let piecePinned := found.isSome
  let pins := match found with
    | some p => removeFirstPin s.pins p
    | none => s.pins
  let allyColor := if s.whiteToMove then 'w' else 'b'
  let moves :=
    if ¬piecePinned then
      knightOffsets.foldl
        (fun moves m =>
          let endRow := r + m.1
          let endCol := c + m.2
          if 0 ≤ endRow ∧ endRow < 8 ∧ 0 ≤ endCol ∧ endCol < 8 then
            if (getSq s.board endRow endCol).1 ≠ allyColor then
              moves ++ [mkMove s.board (r, c) (endRow, endCol) false false false]
            else moves
          else moves)
        moves
    else moves
  (moves, pins)

/-- One sliding ray shared by `getBishopMove` and `getRockMove`: walk outward,
stop at the first occupied square (capturing an enemy), honouring the pin axis. -/
def slideRay (b : Board) (enemyColor : Char) (piecePinned : Bool)
    (pinDirection : Option (Int × Int)) (r c : Int) (d : Int × Int) :
    List Int → List Move
  | [] => []
  | i :: is =>
    let endRow := r + d.1 * i
    let endCol := c + d.2 * i
    if 0 ≤ endRow ∧ endRow < 8 ∧ 0 ≤ endCol ∧ endCol < 8 then
      if ¬piecePinned ∨ pinDirection = some d ∨ pinDirection = some (-d.1, -d.2) then
        let endPiece := getSq b endRow endCol
        if endPiece = emptyCell then
          mkMove b (r, c) (endRow, endCol) false false false ::
            slideRay b enemyColor piecePinned pinDirection r c d is
        else if endPiece.1 = enemyColor then
          [mkMove b (r, c) (endRow, endCol) false false false]
        else []
      else []
    else []

/-- Method `getBishopMove`. -/
def getBishopMove (s : GameState) (r c : Int) (moves : List Move) : List Move × List Pin :=
  let found := findPinRev s.pins r c
  let piecePinned := found.isSome
  let pinDirection : Option (Int × Int) := found.map (fun p => (p.2.2.1, p.2.2.2))
  let pins := match found with
    | some p => removeFirstPin s.pins p
    | none => s.pins
  let enemyColor := if s.whiteToMove then 'b' else 'w'
  let moves :=
    ([(-1, -1), (-1, 1), (1, -1), (1, 1)] : List (Int × Int)).foldl
      (fun moves d =>
        moves ++ slideRay s.board enemyColor piecePinned pinDirection r c d oneToSeven)
      moves
  (moves, pins)

/-- Method `getRockMove`. -/
def getRockMove (s : GameState) (r c : Int) (moves : List Move) : List Move × List Pin :=
  let found := findPinRev s.pins r c
  let piecePinned := found.isSome
  let pinDirection : Option (Int × Int) := found.map (fun p => (p.2.2.1, p.2.2.2))
  let pins := match found with
    | some p => removeFirstPin s.pins p
    | none => s.pins
  let enemyColor := if s.whiteToMove then 'b' else 'w'
  let moves :=
    ([(-1, 0), (0, -1), (1, 0), (0, 1)] : List (Int × Int)).foldl
      (fun moves d =>
        moves ++ slideRay s.board enemyColor piecePinned pinDirection r c d oneToSeven)
      moves
  (moves, pins)

/-- Method `getQueenMove`: bishop rays, then rook rays; the bishop part may
consume the queen's pin entry before the rook part looks for it. -/
def getQueenMove (s : GameState) (r c : Int) (moves : List Move) : List Move × List Pin :=
  let res1 := getBishopMove s r c moves
  getRockMove { s with pins := res1.2 } r c res1.1

/-- The king step rows of `getKingMove`, in source order. -/
def kingRowMoves : List Int := [-1, -1, -1, 0, 0, 1, 1, 1]

/-- The king step columns of `getKingMove`, in source order. -/
def kingColMoves : List Int := [-1, 0, 1, -1, 1, -1, 0, 1]

/-- Method `getKingMove`: each candidate square is probed by temporarily
relocating the cached king location and rerunning `checkForPinsAndChecks`. -/
def getKingMove (s : GameState) (r c : Int) (moves : List Move) : List Move × GameState :=
  let allyColor := if s.whiteToMove then 'w' else 'b'
  (List.range 8).foldl
    (fun (acc : List Move × GameState) i =>
      let (moves, s) := acc
      let endRow := r + kingRowMoves.getD i 0
      let endCol := c + kingColMoves.getD i 0
      if 0 ≤ endRow ∧ endRow < 8 ∧ 0 ≤ endCol ∧ endCol < 8 then
        let endPiece := getSq s.board endRow endCol
        if endPiece.1 ≠ allyColor then
          let s1 :=
            if allyColor = 'w' then { s with whiteKingLocation := (endRow, endCol) }
            else { s with blackKingLocation := (endRow, endCol) }
          let probe := checkForPinsAndChecks s1
          let moves :=
            if ¬probe.1 then moves ++ [mkMove s.board (r, c) (endRow, endCol) false false false]
            else moves
          let s2 :=
            if allyColor = 'w' then { s1 with whiteKingLocation := (r, c) }
            else { s1 with blackKingLocation := (r, c) }
          (moves, s2)
        else (moves, s)
      else (moves, s))
    (moves, s)

/-- One cell of the `getAllPossibleMoves` scan: dispatch on the kind character
of a piece of the side to move. -/
def gapmCellStep (rn cn : Nat) (acc : List Move × GameState) : List Move × GameState :=
  let (moves, st) := acc
  let r : Int := rn
  let c : Int := cn
  let cell := getSq st.board r c
  let turn := cell.1
  if (turn = 'w' ∧ st.whiteToMove) ∨ (turn = 'b' ∧ ¬st.whiteToMove) then
    let piece := cell.2
    if piece = 'p' then
      let res := getPawnMove st r c moves; (res.1, { st with pins := res.2 })
    else if piece = 'N' then
      let res := getKnightMove st r c moves; (res.1, { st with pins := res.2 })
    else if piece = 'B' then
      let res := getBishopMove st r c moves; (res.1, { st with pins := res.2 })
    else if piece = 'R' then
      let res := getRockMove st r c moves; (res.1, { st with pins := res.2 })
    else if piece = 'Q' then
      let res := getQueenMove st r c moves; (res.1, { st with pins := res.2 })
    else if piece = 'K' then getKingMove st r c moves
    else (moves, st)
  else (moves, st)

/-- Method `getAllPossibleMoves`: scan the whole board, dispatching on the
kind character of each piece of the side to move. -/
def getAllPossibleMoves (s : GameState) : List Move × GameState :=
  (List.range s.board.length).foldl
    (fun accR rn =>
      (List.range (s.board.getD rn []).length).foldl
        (fun acc cn => gapmCellStep rn cn acc)
        accR)
    ([], s)

/-- Method `squareUnderAttack`: flip the side to move, enumerate that side's
pseudo-legal moves, flip back, and test whether any move ends on `(r, c)`. -/
def squareUnderAttack (s : GameState) (r c : Int) : Bool × GameState :=
  let s := { s with whiteToMove := !s.whiteToMove }
  let res := getAllPossibleMoves s
  let s := { res.2 with whiteToMove := !res.2.whiteToMove }
  (res.1.any (fun mv => mv.endRow == r && mv.endCol == c), s)

/-- Method `getKingSideCastleMoves`. -/
def getKingSideCastleMoves (s : GameState) (r c : Int) (moves : List Move) :
    List Move × GameState :=
  if getSq s.board r (c + 1) = emptyCell ∧ getSq s.board r (c + 2) = emptyCell then
    let res1 := squareUnderAttack s r (c + 1)
    if res1.1 then (moves, res1.2)
    else
      let res2 := squareUnderAttack res1.2 r (c + 2)
      if res2.1 then (moves, res2.2)
      else (moves ++ [mkMove res2.2.board (r, c) (r, c + 2) false false true], res2.2)
  else (moves, s)

/-- Method `getQueenSideCastleMoves`. -/
def getQueenSideCastleMoves (s : GameState) (r c : Int) (moves : List Move) :
    List Move × GameState :=
  if getSq s.board r (c - 1) = emptyCell ∧ getSq s.board r (c - 2) = emptyCell ∧
      getSq s.board r (c - 3) = emptyCell then
    let res1 := squareUnderAttack s r (c - 1)
    if res1.1 then (moves, res1.2)
    else
      let res2 := squareUnderAttack res1.2 r (c - 2)
      if res2.1 then (moves, res2.2)
      else (moves ++ [mkMove res2.2.board (r, c) (r, c - 2) false false true], res2.2)
  else (moves, s)

/-- Method `getCastleMoves`: nothing while in check; otherwise each side for
which the right is still held. -/
def getCastleMoves (s : GameState) (r c : Int) (moves : List Move) : List Move × GameState :=
  if s.inCheck then (moves, s)
  else
    let (moves, s) :=
      if (s.whiteToMove ∧ s.currentCastlingRights.wks) ∨
          (¬s.whiteToMove ∧ s.currentCastlingRights.bks) then
        getKingSideCastleMoves s r c moves
      else (moves, s)
    if (s.whiteToMove ∧ s.currentCastlingRights.wqs) ∨
        (¬s.whiteToMove ∧ s.currentCastlingRights.bqs) then
      getQueenSideCastleMoves s r c moves
    else (moves, s)

/-- The interposition-square loop of `getValidMoves`: squares from the king
toward the checker, included, stopping at the checker. -/
def validSquaresLoop (kingRow kingCol checkRow checkCol d2 d3 : Int) :
    List Int → List (Int × Int)
  | [] => []
  | i :: is =>
    let validSquare := (kingRow + d2 * i, kingCol + d3 * i)
    if validSquare.1 = checkRow ∧ validSquare.2 = checkCol then [validSquare]
    else validSquare :: validSquaresLoop kingRow kingCol checkRow checkCol d2 d3 is

/-- Python `list.remove` under the spec's move equality. -/
def removeFirstMoveEq : List Move → Move → List Move
  | [], _ => []
  | q :: qs, mv => if moveEq q mv then qs else q :: removeFirstMoveEq qs mv

/-- The single-check filter loop of `getValidMoves`: walk indices downward and
remove every non-king move that neither blocks the check nor captures the
checker. -/
def runFilter (validSquares : List (Int × Int)) : List Move → Nat → List Move
  | ms, 0 => ms
  | ms, i + 1 =>
    let ms1 :=
      match ms.get? i with
      | none => ms
      | some mv =>
        if mv.pieceMoved.2 ≠ 'K' ∧ ¬((mv.endRow, mv.endCol) ∈ validSquares) then
          removeFirstMoveEq ms mv
        else ms
    runFilter validSquares ms1 i

/-- The generation section of `getValidMoves` (after the analysis fields are
assigned): per-piece generation with the single-check filter, or double-check
king moves, or all moves when not in check. -/
def gvmGenerate (s : GameState) : List Move × GameState :=
  let kingRow := if s.whiteToMove then s.whiteKingLocation.1 else s.blackKingLocation.1
  let kingCol := if s.whiteToMove then s.whiteKingLocation.2 else s.blackKingLocation.2
  if s.inCheck then
    if s.checks.length = 1 then
      let res := getAllPossibleMoves s
      let moves := res.1
      let s := res.2
      let check := s.checks.getD 0 (0, 0, 0, 0)
      let checkRow := check.1
      let checkCol := check.2.1
      let pieceChecking := getSq s.board checkRow checkCol
      let validSquares :=
        if pieceChecking.2 = 'N' then [(checkRow, checkCol)]
        else validSquaresLoop kingRow kingCol checkRow checkCol check.2.2.1 check.2.2.2
          oneToSeven
      (runFilter validSquares moves moves.length, s)
    else getKingMove s kingRow kingCol []
  else getAllPossibleMoves s

/-- The terminal-classification section of `getValidMoves`: the checkmate,
stalemate and threefold-repetition flag updates. -/
def gvmTerminalUpdate (s : GameState) (moves : List Move) : GameState :=
  let boardHash := boardHashOf s
  let repetition := 3 ≤ s.boardHistory.count boardHash
  if moves.length = 0 then
    if s.inCheck then { s with checkmate := true } else { s with stalemate := true }
  else
    let s := { s with checkmate := false }
    if repetition then { s with stalemate := true } else { s with stalemate := false }

/-- The final castling section of `getValidMoves`. -/
def gvmCastleStage (s : GameState) (moves : List Move) : List Move × GameState :=
  if s.whiteToMove then getCastleMoves s s.whiteKingLocation.1 s.whiteKingLocation.2 moves
  else getCastleMoves s s.blackKingLocation.1 s.blackKingLocation.2 moves

/-- Method `getValidMoves`: pin/check analysis, per-piece generation, the
single-check filter or double-check king moves, terminal flags with the
threefold-repetition test, and finally the castling moves. -/
def getValidMoves (s : GameState) : List Move × GameState :=
  let res := checkForPinsAndChecks s
  let s := { s with inCheck := res.1, pins := res.2.1, checks := res.2.2 }
  let gen := gvmGenerate s
  gvmCastleStage (gvmTerminalUpdate gen.2 gen.1) gen.1

/-- Method `updateCastlRights` as a pure function on the rights record. -/
def updateCastlRightsFn (c0 : CastleRights) (m : Move) : CastleRights :=
  let c :=
    if m.pieceMoved = ('w', 'K') then { c0 with wks := false, wqs := false }
    else if m.pieceMoved = ('b', 'K') then { c0 with bks := false, bqs := false }
    else if m.pieceMoved = ('w', 'R') then
      if m.startRow = 7 then
        let c1 := if m.startCol = 0 then { c0 with wqs := false } else c0
        if m.startCol = 7 then { c1 with wks := false } else c1
      else c0
    else if m.pieceMoved = ('b', 'R') then
      if m.startRow = 0 then
        let c1 := if m.startCol = 0 then { c0 with bqs := false } else c0
        if m.startCol = 7 then { c1 with bks := false } else c1
      else c0
    else c0
  if m.pieceCaptured = ('w', 'R') then
    if m.endRow = 7 then
      if m.endCol = 0 then { c with wqs := false }
      else if m.endCol = 7 then { c with wks := false }
      else c
    else c
  else if m.pieceCaptured = ('b', 'R') then
    if m.endRow = 0 then
      if m.endCol = 0 then { c with bqs := false }
      else if m.endCol = 7 then { c with bks := false }
      else c
    else c
  else c

/-- Method `updateCastlRights` acting on the game state. -/
def updateCastlRights (s : GameState) (m : Move) : GameState :=
  { s with currentCastlingRights := updateCastlRightsFn s.currentCastlingRights m }

/-- Method `makeMove`: board mutation, king-cache update, promotion,
en-passant removal, en-passant target update, castling rook relocation,
the four history appends and the fingerprint append. -/
def makeMove (s : GameState) (m : Move) : GameState :=
  let b := setSq s.board m.startRow m.startCol emptyCell
  let b := setSq b m.endRow m.endCol m.pieceMoved
  let moveLog := s.moveLog ++ [m]
  let whiteToMove := !s.whiteToMove
  let wKL := if m.pieceMoved = ('w', 'K') then (m.endRow, m.endCol) else s.whiteKingLocation
  let bKL := if m.pieceMoved = ('b', 'K') then (m.endRow, m.endCol) else s.blackKingLocation
  let b :=
    if m.isPawnPromotion then setSq b m.endRow m.endCol (m.pieceMoved.1, m.promotedPiece)
    else b
  let b := if m.isEnpassantMove then setSq b m.startRow m.endCol emptyCell else b
  let enpassantPossible :=
    if m.pieceMoved.2 = 'p' ∧ (m.startRow - m.endRow).natAbs = 2 then
      some (((m.startRow + m.endRow) / 2, m.startCol) : Int × Int)
    else none
  let b :=
    if m.isCastleMove then
      if m.endCol - m.startCol = 2 then
        let b1 := setSq b m.endRow (m.endCol - 1) (getSq b m.endRow (m.endCol + 1))
        setSq b1 m.endRow (m.endCol + 1) emptyCell
      else if m.endCol - m.startCol = -2 then
        let b1 := setSq b m.endRow (m.endCol + 1) (getSq b m.endRow (m.endCol - 2))
        setSq b1 m.endRow (m.endCol - 2) emptyCell
      else b
    else b
  let eplog := s.enpassantPossibleLog ++ [enpassantPossible]
  let cr := updateCastlRightsFn s.currentCastlingRights m
  let crlog := s.castleRightLog ++ [⟨cr.wks, cr.bks, cr.wqs, cr.bqs⟩]
  let bh := s.boardHistory ++ [(b, whiteToMove)]
  { s with
    board := b
    whiteToMove := whiteToMove
    moveLog := moveLog
    whiteKingLocation := wKL
    blackKingLocation := bKL
    enpassantPossible := enpassantPossible
    enpassantPossibleLog := eplog
    currentCastlingRights := cr
    castleRightLog := crlog
    boardHistory := bh }

/-- Method `undoMove`: a no-op on an empty move log; otherwise restores every
field from the move and the popped history entries. -/
def undoMove (s : GameState) : GameState :=
  match s.moveLog.getLast? with
  | none => s
  | some m =>
    let moveLog := s.moveLog.dropLast
    let b := setSq s.board m.startRow m.startCol m.pieceMoved
    let b := setSq b m.endRow m.endCol m.pieceCaptured
    let whiteToMove := !s.whiteToMove
    let wKL := if m.pieceMoved = ('w', 'K') then (m.startRow, m.startCol) else s.whiteKingLocation
    let bKL := if m.pieceMoved = ('b', 'K') then (m.startRow, m.startCol) else s.blackKingLocation
    let b :=
      if m.isEnpassantMove then
        setSq (setSq b m.endRow m.endCol emptyCell) m.startRow m.endCol m.pieceCaptured
      else b
    let eplog := s.enpassantPossibleLog.dropLast
    let enpassantPossible := (eplog.getLast?).getD none
    let crlog := s.castleRightLog.dropLast
    let newRights := (crlog.getLast?).getD ⟨true, true, true, true⟩
    let cr : CastleRights := ⟨newRights.wks, newRights.bks, newRights.wqs, newRights.bqs⟩
    let b :=
      if m.isCastleMove then
        if m.endCol - m.startCol = 2 then
          let b1 := setSq b m.endRow (m.endCol + 1) (getSq b m.endRow (m.endCol - 1))
          setSq b1 m.endRow (m.endCol - 1) emptyCell
        else if m.endCol - m.startCol = -2 then
          let b1 := setSq b m.endRow (m.endCol - 2) (getSq b m.endRow (m.endCol + 1))
          setSq b1 m.endRow (m.endCol + 1) emptyCell
        else b
      else b
    let bh := if 0 < s.boardHistory.length then s.boardHistory.dropLast else s.boardHistory
    { s with
      board := b
      whiteToMove := whiteToMove
      moveLog := moveLog
      whiteKingLocation := wKL
      blackKingLocation := bKL
      checkmate := false
      stalemate := false
      enpassantPossible := enpassantPossible
      enpassantPossibleLog := eplog
      currentCastlingRights := cr
      castleRightLog := crlog
      boardHistory := bh }

/-- One engine turn as the host drives it: `getValidMoves` (which mutates the
analysis fields) followed by `makeMove` with a move drawn from its result. -/
def stepState (s : GameState) (m : Move) : GameState :=
  makeMove (getValidMoves s).2 m

/-- The states the running program can put its `GameState` into by playing
moves returned by `getValidMoves` from the initial position. -/
inductive Reachable : GameState → Prop
  | init : Reachable initialGameState
  | step (s : GameState) (m : Move) :
      Reachable s → m ∈ (getValidMoves s).1 → Reachable (stepState s m)

/-- Modelled from the spec: `config.CHECKMATE` (the file `config.py` is not
among the provided sources); the search uses it as the infinite score bound,
dominating every material evaluation. -/
def CHECKMATE : Int := 100000

/-- Modelled from the spec: the per-piece-kind values `pieceScore` of
`AI/evaluation.py` (absent from the sources); fixed values per kind with the
King dominating all other terms, and 0 for an unknown kind, as the
`dict.get(…, 0)` lookups of `orderMoves` do. -/
def pieceScore (k : Char) : Int :=
  if k = 'p' then 10
  else if k = 'N' then 30
  else if k = 'B' then 30
  else if k = 'R' then 50
  else if k = 'Q' then 90
  else if k = 'K' then 900
  else 0

/-- Modelled from the spec: `scoreBoard` of `AI/evaluation.py` (absent from
the sources); a pure function summing the per-piece-kind values over the
board, positive for White and negative for Black. -/
def scoreBoard (s : GameState) : Int :=
  s.board.foldl
    (fun acc row =>
      row.foldl
        (fun acc cell =>
          if cell.1 = 'w' then acc + pieceScore cell.2
          else if cell.1 = 'b' then acc - pieceScore cell.2
          else acc)
        acc)
    0

/-- Function `findOpeningMove`: the fixed pattern checks of the opening book,
in source order; each step fires only when both of its board conditions hold. -/
def findOpeningMove (gs : GameState) : Option Move :=
  let b := gs.board
  if gs.whiteToMove then
    if getSq b 6 4 = ('w', 'p') ∧ getSq b 4 4 = emptyCell ∧
        getSq b 7 3 = ('w', 'Q') ∧ getSq b 7 5 = ('w', 'B') then
      some (mkMove b (6, 4) (4, 4) false false false)
    else if getSq b 4 4 = ('w', 'p') ∧ getSq b 7 3 = ('w', 'Q') ∧
        getSq b 3 7 = emptyCell then
      some (mkMove b (7, 3) (3, 7) false false false)
    else if getSq b 3 7 = ('w', 'Q') ∧ getSq b 7 5 = ('w', 'B') ∧
        getSq b 4 2 = emptyCell then
      some (mkMove b (7, 5) (4, 2) false false false)
    else if getSq b 3 7 = ('w', 'Q') ∧ getSq b 4 2 = ('w', 'B') ∧
        getSq b 1 5 = ('b', 'p') then
      some (mkMove b (3, 7) (1, 5) false false false)
    else none
  else
    if getSq b 4 4 = ('w', 'p') ∧ getSq b 1 4 = ('b', 'p') ∧
        getSq b 3 4 = emptyCell then
      some (mkMove b (1, 4) (3, 4) false false false)
    else if getSq b 3 7 = ('w', 'Q') ∧ getSq b 0 6 = ('b', 'N') ∧
        getSq b 2 5 = emptyCell then
      some (mkMove b (0, 6) (2, 5) false false false)
    else none

/-- The bound kind of a transposition-table entry. -/
inductive TTFlag where
  | exact
  | lower
  | upper
deriving DecidableEq, Repr

/-- One transposition-table entry: score, searched depth and bound kind. -/
structure TTEntry where
  score : Int
  depth : Nat
  flag : TTFlag
deriving DecidableEq, Repr

/-- The transposition table: the Python dict keyed by the position
fingerprint, modelled as an association list with upsert stores. -/
abbrev TT := List ((Board × Bool) × TTEntry)

/-- Dict lookup `transpositionTable[boardHash]`. -/
def ttFind (tt : TT) (k : Board × Bool) : Option TTEntry :=
  (tt.find? (fun e => e.1 == k)).map (fun e => e.2)

/-- Dict store `transpositionTable[boardHash] = entry`. -/
def ttStore : TT → (Board × Bool) → TTEntry → TT
  | [], k, e => [(k, e)]
  | (k0, e0) :: rest, k, e =>
    if k0 = k then (k, e) :: rest else (k0, e0) :: ttStore rest k e

/-- The search context: the module-level mutable `transpositionTable`,
`nextMove` and `current_search_depth` of `AI/moveFinder.py`. -/
structure SearchCtx where
  tt : TT
  nextMove : Option Move
  currentSearchDepth : Nat
deriving Repr

/-- The MVV-LVA heuristic key of `orderMoves`. -/
def moveScoreFn (move : Move) : Int :=
  if move.isCapture then
    10 * pieceScore move.pieceCaptured.2 - pieceScore move.pieceMoved.2
  else 0

/-- Stable insertion used to model Python's stable `list.sort(key=…,
reverse=True)`: an element goes after every already-placed element whose key
is at least its own. -/
def insertDescStable : List Move → Move → List Move
  | [], x => [x]
  | y :: ys, x =>
    if moveScoreFn y ≥ moveScoreFn x then y :: insertDescStable ys x
    else x :: y :: ys

/-- Function `orderMoves`: sort descending by the MVV-LVA key, stably. -/
def orderMoves (moves : List Move) : List Move :=
  moves.foldl insertDescStable []

/-- The transposition-table probe at the head of `findMoveNegaMaxAlphaBeta`:
either an immediate score or the adjusted `(alpha, beta)` window. -/
def ttProbe (tt : TT) (boardHash : Board × Bool) (depth : Nat) (alpha0 beta0 : Int) :
    Int ⊕ (Int × Int) :=
  match ttFind tt boardHash with
  | some entry =>
    if depth ≤ entry.depth then
      if entry.flag = TTFlag.exact then Sum.inl entry.score
      else
        let alpha :=
          if entry.flag = TTFlag.lower ∧ entry.score > alpha0 then entry.score else alpha0
        let beta :=
          if entry.flag = TTFlag.upper ∧ entry.score < beta0 then entry.score else beta0
        if alpha ≥ beta then Sum.inl entry.score else Sum.inr (alpha, beta)
    else Sum.inr (alpha0, beta0)
  | none => Sum.inr (alpha0, beta0)

/-- Function `findMoveNegaMaxAlphaBeta`: negamax with alpha-beta pruning,
the transposition-table probe and store, move ordering, and the root-level
`nextMove` recording; the mutated `GameState` and the module globals are
threaded explicitly. -/
def findMoveNegaMaxAlphaBeta :
    GameState → List Move → Nat → Int → Int → Int → SearchCtx →
      Int × GameState × SearchCtx
  | gs, _, 0, alpha0, beta0, turnMultiplier, ctx =>
    (match ttProbe ctx.tt (boardHashOf gs) 0 alpha0 beta0 with
      | Sum.inl sc => (sc, gs, ctx)
      | Sum.inr _ => (turnMultiplier * scoreBoard gs, gs, ctx))
  | gs, validMoves, d + 1, alpha0, beta0, turnMultiplier, ctx =>
    (match ttProbe ctx.tt (boardHashOf gs) (d + 1) alpha0 beta0 with
      | Sum.inl sc => (sc, gs, ctx)
      | Sum.inr (alpha, beta) =>
        let orderedMoves := orderMoves validMoves
        let originalAlpha := alpha
        let res := orderedMoves.foldl
          (fun (acc : GameState × SearchCtx × Int × Int × Bool) move =>
            let (gs, ctx, maxScore, alpha, done) := acc
            if done then acc
            else
              let gs := makeMove gs move
              let gvmRes := getValidMoves gs
              let child :=
                findMoveNegaMaxAlphaBeta gvmRes.2 gvmRes.1 d (-beta) (-alpha)
                  (-turnMultiplier) ctx
              let score := -child.1
              let gs := child.2.1
              let ctx := child.2.2
              let (maxScore, ctx) :=
                if score > maxScore then
                  (score,
                    if d + 1 = ctx.currentSearchDepth then { ctx with nextMove := some move }
                    else ctx)
                else (maxScore, ctx)
              let gs := undoMove gs
              let alpha := if maxScore > alpha then maxScore else alpha
              (gs, ctx, maxScore, alpha, decide (alpha ≥ beta)))
          (gs, ctx, -CHECKMATE, alpha, false)
        let (gs, ctx, maxScore, _, _) := res
        let entryFlag :=
          if maxScore ≤ originalAlpha then TTFlag.upper
          else if maxScore ≥ beta then TTFlag.lower
          else TTFlag.exact
        let ctx :=
          { ctx with
            tt := ttStore ctx.tt (boardHashOf gs) ⟨maxScore, d + 1, entryFlag⟩ }
        (maxScore, gs, ctx))

/-- Function `findBestMoveMinMax`: clears the globals, consults the opening
book first and, when the book misses, runs the root negamax search.  The
internal `random.shuffle(validMoves)` is modelled by taking the shuffle's
outcome, a permutation of the caller's move list, as the `shuffledValidMoves`
argument; `returnQueue.put(x)` is modelled as returning `x`. -/
def findBestMoveMinMax (gs : GameState) (shuffledValidMoves : List Move) (depth : Nat) :
    Option Move :=
  let ctx : SearchCtx := { tt := [], nextMove := none, currentSearchDepth := depth }
  match findOpeningMove gs with
  | some openingMove => some openingMove
  | none =>
    let res :=
      findMoveNegaMaxAlphaBeta gs shuffledValidMoves depth (-CHECKMATE) CHECKMATE
        (if gs.whiteToMove then 1 else -1) ctx
    res.2.2.nextMove

/-- Whether the given side's king is attacked, as decided by the engine's own
analyzer `checkForPinsAndChecks` run from that side's perspective. -/
def kingAttacked (s : GameState) (white : Bool) : Bool :=
  (checkForPinsAndChecks { s with whiteToMove := white }).1

/-- A move with no special flags, built by the `Move` constructor on the
given state's board, as the generators build quiet moves and captures. -/
def plainMove (s : GameState) (sr sc er ec : Int) : Move :=
  mkMove s.board (sr, sc) (er, ec) false false false

/-- Play a list of `(startRow, startCol, endRow, endCol)` quiet moves through
the engine protocol: `getValidMoves` then `makeMove` for each. -/
def playMoves (s : GameState) : List (Int × Int × Int × Int) → GameState
  | [] => s
  | (sr, sc, er, ec) :: rest => playMoves (stepState s (plainMove s sr sc er ec)) rest

/-- Check that each move of the list is in the move list `getValidMoves`
returns at its position, so that the played line is legal. -/
def playLegal (s : GameState) : List (Int × Int × Int × Int) → Bool
  | [] => true
  | (sr, sc, er, ec) :: rest =>
    decide (plainMove s sr sc er ec ∈ (getValidMoves s).1) &&
      playLegal (stepState s (plainMove s sr sc er ec)) rest

/-- The line 1.d4 e6 2.Qd2 Bb4, after which the white queen on d2 is pinned
on the e1-b4 diagonal. -/
def pinSequence : List (Int × Int × Int × Int) :=
  [(6, 3, 4, 3), (1, 4, 2, 4), (7, 3, 6, 3), (0, 5, 4, 1)]

/-- The position after 1.d4 e6 2.Qd2 Bb4, White to move. -/
def sPin : GameState := playMoves initialGameState pinSequence

/-- The illegal queen move d2-d3 off the pin axis. -/
def queenD3Move : Move := plainMove sPin 6 3 5 3

/-- The line 1.e4 g5 2.d4 f6 3.Qh5 delivering mate to Black. -/
def mateSequence : List (Int × Int × Int × Int) :=
  [(6, 4, 4, 4), (1, 6, 3, 6), (6, 3, 4, 3), (1, 5, 2, 5), (7, 3, 3, 7)]

/-- The checkmated position after 1.e4 g5 2.d4 f6 3.Qh5, Black to move. -/
def sMate : GameState := playMoves initialGameState mateSequence

/-- Knights hopping out and back three times, repeating the initial position. -/
def repSequence : List (Int × Int × Int × Int) :=
  [(7, 6, 5, 5), (0, 6, 2, 5), (5, 5, 7, 6), (2, 5, 0, 6),
   (7, 6, 5, 5), (0, 6, 2, 5), (5, 5, 7, 6), (2, 5, 0, 6),
   (7, 6, 5, 5), (0, 6, 2, 5), (5, 5, 7, 6), (2, 5, 0, 6)]

/-- The position after the knight shuffle: the initial position seen for the
third time in the position history. -/
def sRep : GameState := playMoves initialGameState repSequence

/-- A sparse test board: kings on their home squares, white pawns on a2 and
h2, nothing else. -/
def c5Board : Board :=
  [ [('-','-'), ('-','-'), ('-','-'), ('-','-'), ('b','K'), ('-','-'), ('-','-'), ('-','-')],
    [('-','-'), ('-','-'), ('-','-'), ('-','-'), ('-','-'), ('-','-'), ('-','-'), ('-','-')],
    [('-','-'), ('-','-'), ('-','-'), ('-','-'), ('-','-'), ('-','-'), ('-','-'), ('-','-')],
    [('-','-'), ('-','-'), ('-','-'), ('-','-'), ('-','-'), ('-','-'), ('-','-'), ('-','-')],
    [('-','-'), ('-','-'), ('-','-'), ('-','-'), ('-','-'), ('-','-'), ('-','-'), ('-','-')],
    [('-','-'), ('-','-'), ('-','-'), ('-','-'), ('-','-'), ('-','-'), ('-','-'), ('-','-')],
    [('w','p'), ('-','-'), ('-','-'), ('-','-'), ('-','-'), ('-','-'), ('-','-'), ('w','p')],
    [('-','-'), ('-','-'), ('-','-'), ('-','-'), ('w','K'), ('-','-'), ('-','-'), ('-','-')] ]

/-- A quiet position on `c5Board` where the opening book finds no pattern and
every legal move keeps the material balance unchanged. -/
def sC5 : GameState :=
  { board := c5Board
    whiteToMove := true
    moveLog := []
    whiteKingLocation := (7, 4)
    blackKingLocation := (0, 4)
    checkmate := false
    stalemate := false
    inCheck := false
    pins := []
    checks := []
    boardHistory := []
    enpassantPossible := none
    enpassantPossibleLog := [none]
    currentCastlingRights := ⟨false, false, false, false⟩
    castleRightLog := [⟨false, false, false, false⟩] }

/-- The initial state with all castling rights revoked and an en-passant
target set, for comparing fingerprints. -/
def sRightsAltered : GameState :=
  { initialGameState with
    currentCastlingRights := ⟨false, false, false, false⟩
    enpassantPossible := some (2, 4) }

/-! ### Frame relations used by the symbolic proofs -/

/-- The fields of the game state that the board scan of
`getAllPossibleMoves` never writes: everything except the pin list and the
two king-location caches. -/
def ScanFrame (s t : GameState) : Prop :=
  t.board = s.board ∧ t.whiteToMove = s.whiteToMove ∧ t.moveLog = s.moveLog ∧
  t.checkmate = s.checkmate ∧ t.stalemate = s.stalemate ∧ t.inCheck = s.inCheck ∧
  t.checks = s.checks ∧ t.boardHistory = s.boardHistory ∧
  t.enpassantPossible = s.enpassantPossible ∧
  t.enpassantPossibleLog = s.enpassantPossibleLog ∧
  t.currentCastlingRights = s.currentCastlingRights ∧
  t.castleRightLog = s.castleRightLog

/-- Pointwise comparison of castling-rights records: every right held in `a`
is held in `b`. -/
def rightsLe (a b : CastleRights) : Prop :=
  (a.wks = true → b.wks = true) ∧ (a.bks = true → b.bks = true) ∧
  (a.wqs = true → b.wqs = true) ∧ (a.bqs = true → b.bqs = true)

/-- One history operation of the undo-stack protocol. -/
inductive HistOp where
  | apply (m : Move)
  | undo
deriving Repr

/-- Run a sequence of `makeMove` and `undoMove` calls. -/
def runHistOps (s : GameState) : List HistOp → GameState
  | [] => s
  | HistOp.apply m :: rest => runHistOps (makeMove s m) rest
  | HistOp.undo :: rest => runHistOps (undoMove s) rest

/-- The lockstep invariant between the move log and the three parallel
history structures. -/
def LogsSync (s : GameState) : Prop :=
  s.castleRightLog.length = s.moveLog.length + 1 ∧
  s.enpassantPossibleLog.length = s.moveLog.length + 1 ∧
  s.boardHistory.length = s.moveLog.length

/-- The move 1.e4 used to instantiate universally quantified theorems. -/
def witMove : Move := plainMove initialGameState 6 4 4 4

/-- The board has eight rows of eight cells. -/
def Dims8 (b : Board) : Prop :=
  b.length = 8 ∧ ∀ row ∈ b, row.length = 8

/-- A valid en-passant target: the passed-over square is empty and the enemy
pawn that just double-stepped stands behind it. -/
def EPInv (s : GameState) : Prop :=
  ∀ er ec : Int, s.enpassantPossible = some (er, ec) →
    getSq s.board er ec = emptyCell ∧
    (s.whiteToMove = true → er = 2 ∧ getSq s.board 3 ec = ('b', 'p')) ∧
    (s.whiteToMove = false → er = 5 ∧ getSq s.board 4 ec = ('w', 'p'))

/-- The white king-location cache is correct: any square holding the white
king is the cached square. -/
def KingSyncW (s : GameState) : Prop :=
  ∀ r c : Int, getSq s.board r c = ('w', 'K') → (r, c) = s.whiteKingLocation

/-- The black king-location cache is correct. -/
def KingSyncB (s : GameState) : Prop :=
  ∀ r c : Int, getSq s.board r c = ('b', 'K') → (r, c) = s.blackKingLocation

/-- While White retains a castling right its king has never moved. -/
def RightsHomeW (s : GameState) : Prop :=
  s.currentCastlingRights.wks = true ∨ s.currentCastlingRights.wqs = true →
    s.whiteKingLocation = (7, 4)

/-- While Black retains a castling right its king has never moved. -/
def RightsHomeB (s : GameState) : Prop :=
  s.currentCastlingRights.bks = true ∨ s.currentCastlingRights.bqs = true →
    s.blackKingLocation = (0, 4)

/-- Shape of an ordinary generated move (quiet, capture or promotion): built
by the `Move` constructor on the current board with no special flag, and a
two-rank move of a pawn can only be the guarded double step. -/
def PlainOk (s : GameState) (m : Move) : Prop :=
  ∃ st en : Int × Int, ∃ pp : Bool,
    m = mkMove s.board st en pp false false ∧
    ((getSq s.board st.1 st.2).2 = 'p' → (st.1 - en.1).natAbs = 2 →
      en.2 = st.2 ∧ 0 ≤ st.2 ∧ st.2 < 8 ∧
      (s.whiteToMove = true → st.1 = 6 ∧ en.1 = 4 ∧
        getSq s.board st.1 st.2 = ('w', 'p') ∧ getSq s.board 5 st.2 = emptyCell) ∧
      (s.whiteToMove = false → st.1 = 1 ∧ en.1 = 3 ∧
        getSq s.board st.1 st.2 = ('b', 'p') ∧ getSq s.board 2 st.2 = emptyCell))

/-- Shape of a generated en-passant capture. -/
def EpOk (s : GameState) (m : Move) : Prop :=
  ∃ st en : Int × Int,
    m = mkMove s.board st en false true false ∧
    s.enpassantPossible = some en ∧
    (s.whiteToMove = true → getSq s.board st.1 st.2 = ('w', 'p') ∧ en.1 = st.1 - 1) ∧
    (s.whiteToMove = false → getSq s.board st.1 st.2 = ('b', 'p') ∧ en.1 = st.1 + 1) ∧
    (en.2 = st.2 - 1 ∨ en.2 = st.2 + 1)

/-- Shape of a generated castling move. -/
def CastleOk (s : GameState) (m : Move) : Prop :=
  ∃ st en : Int × Int,
    m = mkMove s.board st en false false true ∧
    en.1 = st.1 ∧
    (s.whiteToMove = true → st = s.whiteKingLocation ∧
      (s.currentCastlingRights.wks = true ∨ s.currentCastlingRights.wqs = true)) ∧
    (s.whiteToMove = false → st = s.blackKingLocation ∧
      (s.currentCastlingRights.bks = true ∨ s.currentCastlingRights.bqs = true)) ∧
    ((en.2 = st.2 + 2 ∧ getSq s.board st.1 (st.2 + 1) = emptyCell ∧
        getSq s.board st.1 (st.2 + 2) = emptyCell) ∨
      (en.2 = st.2 - 2 ∧ getSq s.board st.1 (st.2 - 1) = emptyCell ∧
        getSq s.board st.1 (st.2 - 2) = emptyCell))

/-- Every move `getValidMoves` produces has one of the three shapes. -/
def MoveOk (s : GameState) (m : Move) : Prop :=
  PlainOk s m ∨ EpOk s m ∨ CastleOk s m

/-- The restoration contract of C3: after `makeMove` then `undoMove` the six
observable state components are back to their prior values. -/
def RestoreSpec (s : GameState) (m : Move) : Prop :=
  (undoMove (makeMove s m)).board = s.board ∧
  (undoMove (makeMove s m)).whiteToMove = s.whiteToMove ∧
  (undoMove (makeMove s m)).currentCastlingRights = s.currentCastlingRights ∧
  (undoMove (makeMove s m)).enpassantPossible = s.enpassantPossible ∧
  (undoMove (makeMove s m)).whiteKingLocation = s.whiteKingLocation ∧
  (undoMove (makeMove s m)).blackKingLocation = s.blackKingLocation

/-- The analysis prefix of `getValidMoves`: the state after the
`checkForPinsAndChecks` fields are assigned. -/
def gvmAnalyzed (s : GameState) : GameState :=
  { s with
    inCheck := (checkForPinsAndChecks s).1
    pins := (checkForPinsAndChecks s).2.1
    checks := (checkForPinsAndChecks s).2.2 }

/-- An empty board row. -/
def eRow : List Cell := List.replicate 8 emptyCell

/-- A board holding only a black pawn on c4 and a white rook on d4. -/
def epXBoard : Board :=
  [eRow, eRow, eRow, eRow,
   [emptyCell, emptyCell, ('b', 'p'), ('w', 'R'), emptyCell, emptyCell, emptyCell, emptyCell],
   eRow, eRow, eRow]

/-- A position whose en-passant target square d3 is inconsistent with the
board: the square behind the target holds a white rook, not the white pawn
the en-passant bookkeeping expects. -/
def sEpX : GameState :=
  { board := epXBoard
    whiteToMove := false
    moveLog := []
    whiteKingLocation := (9, 9)
    blackKingLocation := (9, 9)
    checkmate := false
    stalemate := false
    inCheck := false
    pins := []
    checks := []
    boardHistory := []
    enpassantPossible := some (5, 3)
    enpassantPossibleLog := [some (5, 3)]
    currentCastlingRights := ⟨false, false, false, false⟩
    castleRightLog := [⟨false, false, false, false⟩] }

/-- The en-passant capture c4xd3 in the inconsistent position. -/
def mEpX : Move := mkMove epXBoard (4, 2) (5, 3) false true false

end Chess

/-! ### Theorems -/

namespace Chess

theorem scanFrame_refl (s : GameState) : ScanFrame s s := by
  simp [ScanFrame]

theorem scanFrame_trans {s t u : GameState} (h1 : ScanFrame s t) (h2 : ScanFrame t u) :
    ScanFrame s u := by
  obtain ⟨a1, a2, a3, a4, a5, a6, a7, a8, a9, a10, a11, a12⟩ := h1
  obtain ⟨b1, b2, b3, b4, b5, b6, b7, b8, b9, b10, b11, b12⟩ := h2
  exact ⟨b1.trans a1, b2.trans a2, b3.trans a3, b4.trans a4, b5.trans a5, b6.trans a6,
    b7.trans a7, b8.trans a8, b9.trans a9, b10.trans a10, b11.trans a11, b12.trans a12⟩

theorem foldl_invariant {α β : Type} (P : β → Prop) (f : β → α → β) :
    ∀ (l : List α) (b : β), P b → (∀ b a, P b → P (f b a)) → P (l.foldl f b)
  | [], _, hb, _ => hb
  | a :: l, b, hb, hf => foldl_invariant P f l (f b a) (hf b a hb) hf

theorem getKingMove_frame {s0 s : GameState} (r c : Int) (moves : List Move)
    (h : ScanFrame s0 s) : ScanFrame s0 (getKingMove s r c moves).2 := by
  unfold getKingMove
  refine foldl_invariant (fun acc : List Move × GameState => ScanFrame s0 acc.2) _ _ _ h ?_
  rintro ⟨ms, st⟩ i hacc
  dsimp only
  split_ifs <;> exact hacc

theorem getAllPossibleMoves_frame (s : GameState) :
    ScanFrame s (getAllPossibleMoves s).2 := by
  unfold getAllPossibleMoves
  refine foldl_invariant (fun acc : List Move × GameState => ScanFrame s acc.2) _ _ _
    (scanFrame_refl s) ?_
  rintro ⟨ms, st⟩ rn hacc
  refine foldl_invariant (fun acc : List Move × GameState => ScanFrame s acc.2) _ _ _ hacc ?_
  rintro ⟨ms1, st1⟩ cn hacc1
  dsimp only [gapmCellStep]
  split_ifs <;>
    first
      | exact hacc1
      | exact getKingMove_frame _ _ _ hacc1

theorem squareUnderAttack_frame (s : GameState) (r c : Int) :
    ScanFrame s (squareUnderAttack s r c).2 := by
  have h1 := getAllPossibleMoves_frame { s with whiteToMove := !s.whiteToMove }
  unfold squareUnderAttack
  dsimp only
  simp only [ScanFrame] at h1 ⊢
  obtain ⟨b1, b2, b3, b4, b5, b6, b7, b8, b9, b10, b11, b12⟩ := h1
  refine ⟨b1, ?_, b3, b4, b5, b6, b7, b8, b9, b10, b11, b12⟩
  rw [b2]
  simp

theorem getKingSideCastleMoves_spec (s : GameState) (r c : Int) (moves : List Move) :
    ScanFrame s (getKingSideCastleMoves s r c moves).2 ∧
    ∃ extra, (getKingSideCastleMoves s r c moves).1 = moves ++ extra := by
  simp only [getKingSideCastleMoves]
  split_ifs with h1 h2 h3
  · exact ⟨squareUnderAttack_frame s r (c + 1), [], by simp⟩
  · exact ⟨scanFrame_trans (squareUnderAttack_frame s r (c + 1))
      (squareUnderAttack_frame _ r (c + 2)), [], by simp⟩
  · exact ⟨scanFrame_trans (squareUnderAttack_frame s r (c + 1))
      (squareUnderAttack_frame _ r (c + 2)), _, rfl⟩
  · exact ⟨scanFrame_refl s, [], by simp⟩

theorem getQueenSideCastleMoves_spec (s : GameState) (r c : Int) (moves : List Move) :
    ScanFrame s (getQueenSideCastleMoves s r c moves).2 ∧
    ∃ extra, (getQueenSideCastleMoves s r c moves).1 = moves ++ extra := by
  simp only [getQueenSideCastleMoves]
  split_ifs with h1 h2 h3
  · exact ⟨squareUnderAttack_frame s r (c - 1), [], by simp⟩
  · exact ⟨scanFrame_trans (squareUnderAttack_frame s r (c - 1))
      (squareUnderAttack_frame _ r (c - 2)), [], by simp⟩
  · exact ⟨scanFrame_trans (squareUnderAttack_frame s r (c - 1))
      (squareUnderAttack_frame _ r (c - 2)), _, rfl⟩
  · exact ⟨scanFrame_refl s, [], by simp⟩

theorem getCastleMoves_spec (s : GameState) (r c : Int) (moves : List Move) :
    ScanFrame s (getCastleMoves s r c moves).2 ∧
    ∃ extra, (getCastleMoves s r c moves).1 = moves ++ extra := by
  simp only [getCastleMoves]
  split_ifs with h1 h2 h3 h4 h5
  · exact ⟨scanFrame_refl s, [], by simp⟩
  all_goals
    first
      | exact ⟨scanFrame_refl s, [], by simp⟩
      | (obtain ⟨hf1, e1, he1⟩ := getKingSideCastleMoves_spec s r c moves
         first
           | exact ⟨hf1, e1, he1⟩
           | (obtain ⟨hf2, e2, he2⟩ :=
                getQueenSideCastleMoves_spec (getKingSideCastleMoves s r c moves).2 r c
                  (getKingSideCastleMoves s r c moves).1
              exact ⟨scanFrame_trans hf1 hf2, e1 ++ e2, by rw [he2, he1, List.append_assoc]⟩))
      | (obtain ⟨hf2, e2, he2⟩ := getQueenSideCastleMoves_spec s r c moves
         exact ⟨hf2, e2, he2⟩)

theorem getCastleMoves_inCheck (s : GameState) (r c : Int) (moves : List Move)
    (h : s.inCheck = true) : getCastleMoves s r c moves = (moves, s) := by
  unfold getCastleMoves
  rw [if_pos h]

theorem gvmGenerate_frame (s : GameState) : ScanFrame s (gvmGenerate s).2 := by
  simp only [gvmGenerate]
  split_ifs <;>
    first
      | exact getAllPossibleMoves_frame s
      | exact getKingMove_frame _ _ _ (scanFrame_refl s)

theorem gvmTerminalUpdate_misc (s : GameState) (moves : List Move) :
    (gvmTerminalUpdate s moves).inCheck = s.inCheck ∧
    (gvmTerminalUpdate s moves).whiteToMove = s.whiteToMove := by
  simp only [gvmTerminalUpdate]
  split_ifs <;> simp

theorem gvmTerminalUpdate_empty (s : GameState) (moves : List Move)
    (h : moves.length = 0) :
    (gvmTerminalUpdate s moves).checkmate = true ∨
    (gvmTerminalUpdate s moves).stalemate = true := by
  simp only [gvmTerminalUpdate]
  rw [if_pos h]
  split_ifs <;> simp

theorem gvmTerminalUpdate_empty_notInCheck (s : GameState) (moves : List Move)
    (h : moves.length = 0) (hic : s.inCheck = false) :
    (gvmTerminalUpdate s moves).stalemate = true := by
  simp only [gvmTerminalUpdate]
  rw [if_pos h, if_neg (by simp [hic])]

theorem gvmTerminalUpdate_nonempty_rep (s : GameState) (moves : List Move)
    (hne : ¬moves.length = 0) (hrep : 3 ≤ s.boardHistory.count (boardHashOf s)) :
    (gvmTerminalUpdate s moves).stalemate = true := by
  simp only [gvmTerminalUpdate]
  rw [if_neg hne, if_pos hrep]

theorem gvmCastleStage_spec (s : GameState) (moves : List Move) :
    ScanFrame s (gvmCastleStage s moves).2 ∧
    ∃ extra, (gvmCastleStage s moves).1 = moves ++ extra := by
  simp only [gvmCastleStage]
  split_ifs <;> exact getCastleMoves_spec _ _ _ _

theorem gvmCastleStage_inCheck (s : GameState) (moves : List Move)
    (h : s.inCheck = true) : gvmCastleStage s moves = (moves, s) := by
  simp only [gvmCastleStage]
  split_ifs <;> exact getCastleMoves_inCheck _ _ _ _ h

theorem gvm_tail_empty (sG : GameState)
    (h : (gvmCastleStage (gvmTerminalUpdate (gvmGenerate sG).2 (gvmGenerate sG).1)
      (gvmGenerate sG).1).1 = []) :
    (gvmCastleStage (gvmTerminalUpdate (gvmGenerate sG).2 (gvmGenerate sG).1)
      (gvmGenerate sG).1).2.checkmate = true ∨
    (gvmCastleStage (gvmTerminalUpdate (gvmGenerate sG).2 (gvmGenerate sG).1)
      (gvmGenerate sG).1).2.stalemate = true := by
  obtain ⟨hf, extra, he⟩ :=
    gvmCastleStage_spec (gvmTerminalUpdate (gvmGenerate sG).2 (gvmGenerate sG).1)
      (gvmGenerate sG).1
  rw [he] at h
  have hgen : (gvmGenerate sG).1 = [] := (List.append_eq_nil.mp h).1
  have hflag := gvmTerminalUpdate_empty (gvmGenerate sG).2 (gvmGenerate sG).1
    (by rw [hgen]; rfl)
  obtain ⟨_, _, _, hcm, hsm, _⟩ := hf
  rw [hcm, hsm]
  exact hflag

theorem gvm_tail_rep (sG : GameState)
    (hrep : 3 ≤ sG.boardHistory.count (boardHashOf sG))
    (hne : (gvmCastleStage (gvmTerminalUpdate (gvmGenerate sG).2 (gvmGenerate sG).1)
      (gvmGenerate sG).1).1 ≠ []) :
    (gvmCastleStage (gvmTerminalUpdate (gvmGenerate sG).2 (gvmGenerate sG).1)
      (gvmGenerate sG).1).2.stalemate = true := by
  have hgf := gvmGenerate_frame sG
  obtain ⟨hfc, extrac, hec⟩ :=
    gvmCastleStage_spec (gvmTerminalUpdate (gvmGenerate sG).2 (gvmGenerate sG).1)
      (gvmGenerate sG).1
  obtain ⟨_, _, _, _, hsm, _⟩ := hfc
  rw [hsm]
  by_cases hg : (gvmGenerate sG).1.length = 0
  · by_cases hchk : (gvmGenerate sG).2.inCheck = true
    · exfalso
      have hid := gvmCastleStage_inCheck
        (gvmTerminalUpdate (gvmGenerate sG).2 (gvmGenerate sG).1) (gvmGenerate sG).1
        (by rw [(gvmTerminalUpdate_misc _ _).1]; exact hchk)
      rw [hid] at hne
      exact hne (List.length_eq_zero.mp hg)
    · exact gvmTerminalUpdate_empty_notInCheck _ _ hg (Bool.not_eq_true _ |>.mp hchk)
  · have hrep2 : 3 ≤ (gvmGenerate sG).2.boardHistory.count (boardHashOf (gvmGenerate sG).2) := by
      obtain ⟨hb, hw, _, _, _, _, _, hbh, _⟩ := hgf
      rw [hbh]
      unfold boardHashOf
      rw [hb, hw]
      exact hrep
    exact gvmTerminalUpdate_nonempty_rep _ _ hg hrep2

theorem C2_empty_iff_flag_forward (s : GameState) (h : (getValidMoves s).1 = []) :
    (getValidMoves s).2.checkmate = true ∨ (getValidMoves s).2.stalemate = true :=
  gvm_tail_empty
    { s with
      inCheck := (checkForPinsAndChecks s).1
      pins := (checkForPinsAndChecks s).2.1
      checks := (checkForPinsAndChecks s).2.2 } h

theorem C6_threefold_repetition_sets_draw (s : GameState) (hR : Reachable s)
    (hrep : 3 ≤ s.boardHistory.count (boardHashOf s))
    (hne : (getValidMoves s).1 ≠ []) :
    (getValidMoves s).2.stalemate = true :=
  gvm_tail_rep
    { s with
      inCheck := (checkForPinsAndChecks s).1
      pins := (checkForPinsAndChecks s).2.1
      checks := (checkForPinsAndChecks s).2.2 }
    hrep hne

/-! Board access algebra for the undo-restoration development. -/

theorem listSet_oob {α : Type} : ∀ (l : List α) (i : Nat) (a : α), l.length ≤ i → l.set i a = l
  | [], _, _, _ => rfl
  | _ :: _, 0, _, h => by simp at h
  | x :: xs, i + 1, a, h => by
    simp only [List.set]
    rw [listSet_oob xs i a (by simpa using h)]

theorem listGetD_set_ne {α : Type} :
    ∀ (l : List α) (i j : Nat) (a d : α), i ≠ j → (l.set i a).getD j d = l.getD j d
  | [], _, _, _, _, _ => rfl
  | _ :: _, 0, 0, _, _, h => absurd rfl h
  | _ :: _, 0, _ + 1, _, _, _ => rfl
  | _ :: _, _ + 1, 0, _, _, _ => rfl
  | _ :: xs, i + 1, j + 1, a, d, h =>
    listGetD_set_ne xs i j a d (fun hc => h (by rw [hc]))

theorem listGetD_set_self {α : Type} :
    ∀ (l : List α) (i : Nat) (a d : α), i < l.length → (l.set i a).getD i d = a
  | [], _, _, _, h => by simp at h
  | _ :: _, 0, _, _, _ => rfl
  | _ :: xs, i + 1, a, d, h => listGetD_set_self xs i a d (by simpa using h)

theorem listSet_getD_self {α : Type} :
    ∀ (l : List α) (i : Nat) (d : α), l.set i (l.getD i d) = l
  | [], _, _ => rfl
  | _ :: _, 0, _ => rfl
  | x :: xs, i + 1, d => by
    simp only [List.set, List.getD_cons_succ]
    rw [listSet_getD_self xs i d]

theorem toNat_inj_of_nonneg {a b : Int} (ha : 0 ≤ a) (hb : 0 ≤ b)
    (h : a.toNat = b.toNat) : a = b := by
  rw [← Int.toNat_of_nonneg ha, ← Int.toNat_of_nonneg hb, h]

/-- Reading a square other than the written one is unchanged. -/
theorem getSq_setSq_ne (b : Board) (r c r2 c2 : Int) (v : Cell)
    (h : ¬(r2 = r ∧ c2 = c)) : getSq (setSq b r c v) r2 c2 = getSq b r2 c2 := by
  unfold getSq setSq
  by_cases hw : 0 ≤ r ∧ 0 ≤ c
  · rw [if_pos hw]
    by_cases hrd : 0 ≤ r2 ∧ 0 ≤ c2
    · rw [if_pos hrd, if_pos hrd]
      by_cases hrr : r2 = r
      · subst hrr
        have hcc : c2 ≠ c := fun hc => h ⟨rfl, hc⟩
        have hccn : c2.toNat ≠ c.toNat := fun he => hcc (toNat_inj_of_nonneg hrd.2 hw.2 he)
        by_cases hlen : r2.toNat < b.length
        · rw [listGetD_set_self b r2.toNat _ [] hlen]
          exact listGetD_set_ne _ _ _ _ _ (Ne.symm hccn)
        · rw [listSet_oob b r2.toNat _ (Nat.le_of_not_lt hlen)]
      · have hrrn : r.toNat ≠ r2.toNat :=
          fun he => hrr (toNat_inj_of_nonneg hrd.1 hw.1 he.symm)
        rw [listGetD_set_ne b r.toNat r2.toNat _ [] hrrn]
    · rw [if_neg hrd, if_neg hrd]
  · rw [if_neg hw]

/-- Writing a square with its own current value changes nothing. -/
theorem setSq_getSq_self (b : Board) (r c : Int) :
    setSq b r c (getSq b r c) = b := by
  unfold getSq setSq
  by_cases hw : 0 ≤ r ∧ 0 ≤ c
  · rw [if_pos hw, if_pos hw, listSet_getD_self, listSet_getD_self]
  · rw [if_neg hw]

/-- Writing the same square twice keeps only the second value. -/
theorem setSq_setSq_same (b : Board) (r c : Int) (v w : Cell) :
    setSq (setSq b r c v) r c w = setSq b r c w := by
  unfold setSq
  by_cases hw : 0 ≤ r ∧ 0 ≤ c
  · simp only [if_pos hw]
    by_cases hlen : r.toNat < b.length
    · rw [listGetD_set_self b r.toNat _ [] hlen, List.set_set, List.set_set]
    · have hno : ∀ row : List Cell, b.set r.toNat row = b :=
        fun row => listSet_oob b r.toNat row (Nat.le_of_not_lt hlen)
      simp only [hno]
  · simp only [if_neg hw]

/-- Writes to distinct squares commute. -/
theorem setSq_comm (b : Board) (r c r2 c2 : Int) (v w : Cell)
    (h : ¬(r2 = r ∧ c2 = c)) :
    setSq (setSq b r c v) r2 c2 w = setSq (setSq b r2 c2 w) r c v := by
  unfold setSq
  by_cases hw1 : 0 ≤ r ∧ 0 ≤ c
  · by_cases hw2 : 0 ≤ r2 ∧ 0 ≤ c2
    · simp only [if_pos hw1, if_pos hw2]
      by_cases hrr : r2 = r
      · subst hrr
        have hcc : c2.toNat ≠ c.toNat :=
          fun he => h ⟨rfl, toNat_inj_of_nonneg hw2.2 hw1.2 he⟩
        by_cases hlen : r2.toNat < b.length
        · rw [listGetD_set_self b r2.toNat _ [] hlen,
            listGetD_set_self b r2.toNat _ [] hlen,
            List.set_set, List.set_set, List.set_comm _ _ _ (Ne.symm hcc)]
        · have hno : ∀ row : List Cell, b.set r2.toNat row = b :=
            fun row => listSet_oob b r2.toNat row (Nat.le_of_not_lt hlen)
          simp only [hno]
      · have hrn : r.toNat ≠ r2.toNat :=
          fun he => hrr (toNat_inj_of_nonneg hw2.1 hw1.1 he.symm)
        rw [listGetD_set_ne b r.toNat r2.toNat _ [] hrn,
          listGetD_set_ne b r2.toNat r.toNat _ [] (Ne.symm hrn),
          List.set_comm _ _ _ hrn]
    · simp only [if_pos hw1, if_neg hw2]
  · by_cases hw2 : 0 ≤ r2 ∧ 0 ≤ c2
    · simp only [if_neg hw1, if_pos hw2]
    · simp only [if_neg hw1, if_neg hw2]

theorem listGetD_mem {α : Type} (l : List α) (n : Nat) (d : α) (h : n < l.length) :
    l.getD n d ∈ l := by
  rw [List.getD_eq_getElem l d h]
  exact List.getElem_mem h

theorem dims8_setSq {b : Board} (r c : Int) (v : Cell) (h : Dims8 b) :
    Dims8 (setSq b r c v) := by
  unfold setSq
  split_ifs with hw
  · by_cases hlen : r.toNat < b.length
    · refine ⟨by rw [List.length_set]; exact h.1, ?_⟩
      intro row hrow
      rcases List.mem_or_eq_of_mem_set hrow with hmem | heq
      · exact h.2 row hmem
      · rw [heq, List.length_set]
        exact h.2 _ (listGetD_mem b r.toNat [] hlen)
    · rw [listSet_oob b r.toNat _ (Nat.le_of_not_lt hlen)]
      exact h
  · exact h

/-- Reading back the square just written, on a well-formed board in range. -/
theorem getSq_setSq_self (b : Board) (r c : Int) (v : Cell) (hd : Dims8 b)
    (hr0 : 0 ≤ r) (hr8 : r < 8) (hc0 : 0 ≤ c) (hc8 : c < 8) :
    getSq (setSq b r c v) r c = v := by
  unfold getSq setSq
  rw [if_pos ⟨hr0, hc0⟩, if_pos ⟨hr0, hc0⟩]
  have hrn : r.toNat < b.length := by
    rw [hd.1]; omega
  rw [listGetD_set_self b r.toNat _ [] hrn]
  have hcn : c.toNat < (b.getD r.toNat []).length := by
    rw [hd.2 _ (listGetD_mem _ _ _ hrn)]; omega
  exact listGetD_set_self _ _ _ _ hcn

/-! Reachability invariants and the shape of generated moves. -/

theorem makeMove_getLast (s : GameState) (m : Move) :
    (makeMove s m).moveLog.getLast? = some m := by
  simp [makeMove]

/-- The explicit form of `undoMove` when the move log ends in `m`. -/
theorem undoMove_eq (s : GameState) (m : Move) (h : s.moveLog.getLast? = some m) :
    undoMove s =
    { s with
      board :=
        (let b := setSq s.board m.startRow m.startCol m.pieceMoved
         let b := setSq b m.endRow m.endCol m.pieceCaptured
         let b :=
           if m.isEnpassantMove then
             setSq (setSq b m.endRow m.endCol emptyCell) m.startRow m.endCol m.pieceCaptured
           else b
         if m.isCastleMove then
           if m.endCol - m.startCol = 2 then
             setSq (setSq b m.endRow (m.endCol + 1) (getSq b m.endRow (m.endCol - 1)))
               m.endRow (m.endCol - 1) emptyCell
           else if m.endCol - m.startCol = -2 then
             setSq (setSq b m.endRow (m.endCol - 2) (getSq b m.endRow (m.endCol + 1)))
               m.endRow (m.endCol + 1) emptyCell
           else b
         else b)
      whiteToMove := !s.whiteToMove
      moveLog := s.moveLog.dropLast
      whiteKingLocation :=
        if m.pieceMoved = ('w', 'K') then (m.startRow, m.startCol) else s.whiteKingLocation
      blackKingLocation :=
        if m.pieceMoved = ('b', 'K') then (m.startRow, m.startCol) else s.blackKingLocation
      checkmate := false
      stalemate := false
      enpassantPossible := ((s.enpassantPossibleLog.dropLast).getLast?).getD none
      enpassantPossibleLog := s.enpassantPossibleLog.dropLast
      currentCastlingRights :=
        ⟨(((s.castleRightLog.dropLast).getLast?).getD ⟨true, true, true, true⟩).wks,
          (((s.castleRightLog.dropLast).getLast?).getD ⟨true, true, true, true⟩).bks,
          (((s.castleRightLog.dropLast).getLast?).getD ⟨true, true, true, true⟩).wqs,
          (((s.castleRightLog.dropLast).getLast?).getD ⟨true, true, true, true⟩).bqs⟩
      castleRightLog := s.castleRightLog.dropLast
      boardHistory :=
        if 0 < s.boardHistory.length then s.boardHistory.dropLast else s.boardHistory } := by
  unfold undoMove
  rw [h]

theorem makeMove_whiteToMove (s : GameState) (m : Move) :
    (makeMove s m).whiteToMove = !s.whiteToMove := rfl

theorem makeMove_moveLog (s : GameState) (m : Move) :
    (makeMove s m).moveLog = s.moveLog ++ [m] := rfl

theorem makeMove_wKL (s : GameState) (m : Move) :
    (makeMove s m).whiteKingLocation =
      if m.pieceMoved = ('w', 'K') then (m.endRow, m.endCol) else s.whiteKingLocation := rfl

theorem makeMove_bKL (s : GameState) (m : Move) :
    (makeMove s m).blackKingLocation =
      if m.pieceMoved = ('b', 'K') then (m.endRow, m.endCol) else s.blackKingLocation := rfl

theorem makeMove_eplog (s : GameState) (m : Move) :
    (makeMove s m).enpassantPossibleLog =
      s.enpassantPossibleLog ++ [(makeMove s m).enpassantPossible] := rfl

theorem makeMove_crlog (s : GameState) (m : Move) :
    (makeMove s m).castleRightLog =
      s.castleRightLog ++
        [⟨(makeMove s m).currentCastlingRights.wks, (makeMove s m).currentCastlingRights.bks,
          (makeMove s m).currentCastlingRights.wqs,
          (makeMove s m).currentCastlingRights.bqs⟩] := rfl

theorem makeMove_board (s : GameState) (m : Move) :
    (makeMove s m).board =
      (let b := setSq s.board m.startRow m.startCol emptyCell
       let b := setSq b m.endRow m.endCol m.pieceMoved
       let b :=
         if m.isPawnPromotion then
           setSq b m.endRow m.endCol (m.pieceMoved.1, m.promotedPiece)
         else b
       let b := if m.isEnpassantMove then setSq b m.startRow m.endCol emptyCell else b
       if m.isCastleMove then
         if m.endCol - m.startCol = 2 then
           setSq (setSq b m.endRow (m.endCol - 1) (getSq b m.endRow (m.endCol + 1)))
             m.endRow (m.endCol + 1) emptyCell
         else if m.endCol - m.startCol = -2 then
           setSq (setSq b m.endRow (m.endCol + 1) (getSq b m.endRow (m.endCol - 2)))
             m.endRow (m.endCol - 2) emptyCell
         else b
       else b) := rfl

theorem undo_make_nonboard (s : GameState) (m : Move)
    (hcr : s.castleRightLog.getLast? = some s.currentCastlingRights)
    (hel : s.enpassantPossibleLog.getLast? = some s.enpassantPossible)
    (hWst : m.pieceMoved = ('w', 'K') → ((m.startRow, m.startCol) : Int × Int) = s.whiteKingLocation)
    (hBst : m.pieceMoved = ('b', 'K') → ((m.startRow, m.startCol) : Int × Int) = s.blackKingLocation) :
    (undoMove (makeMove s m)).whiteToMove = s.whiteToMove ∧
    (undoMove (makeMove s m)).currentCastlingRights = s.currentCastlingRights ∧
    (undoMove (makeMove s m)).enpassantPossible = s.enpassantPossible ∧
    (undoMove (makeMove s m)).whiteKingLocation = s.whiteKingLocation ∧
    (undoMove (makeMove s m)).blackKingLocation = s.blackKingLocation := by
  have he := undoMove_eq (makeMove s m) m (makeMove_getLast s m)
  have hdlc : (makeMove s m).castleRightLog.dropLast = s.castleRightLog := by
    rw [makeMove_crlog]
    exact List.dropLast_concat
  have hdle : (makeMove s m).enpassantPossibleLog.dropLast = s.enpassantPossibleLog := by
    rw [makeMove_eplog]
    exact List.dropLast_concat
  refine ⟨?_, ?_, ?_, ?_, ?_⟩
  · rw [he]
    dsimp only
    rw [makeMove_whiteToMove, Bool.not_not]
  · rw [he]
    dsimp only
    rw [hdlc, hcr]
    rfl
  · rw [he]
    dsimp only
    rw [hdle, hel]
    rfl
  · rw [he]
    dsimp only
    by_cases hk : m.pieceMoved = ('w', 'K')
    · rw [if_pos hk]
      exact hWst hk
    · rw [if_neg hk, makeMove_wKL, if_neg hk]
  · rw [he]
    dsimp only
    by_cases hk : m.pieceMoved = ('b', 'K')
    · rw [if_pos hk]
      exact hBst hk
    · rw [if_neg hk, makeMove_bKL, if_neg hk]

theorem mkMove_startRow (b : Board) (st en : Int × Int) (pp ep ca : Bool) :
    (mkMove b st en pp ep ca).startRow = st.1 := rfl

theorem mkMove_startCol (b : Board) (st en : Int × Int) (pp ep ca : Bool) :
    (mkMove b st en pp ep ca).startCol = st.2 := rfl

theorem mkMove_endRow (b : Board) (st en : Int × Int) (pp ep ca : Bool) :
    (mkMove b st en pp ep ca).endRow = en.1 := rfl

theorem mkMove_endCol (b : Board) (st en : Int × Int) (pp ep ca : Bool) :
    (mkMove b st en pp ep ca).endCol = en.2 := rfl

theorem mkMove_pieceMoved (b : Board) (st en : Int × Int) (pp ep ca : Bool) :
    (mkMove b st en pp ep ca).pieceMoved = getSq b st.1 st.2 := rfl

theorem mkMove_pieceCaptured (b : Board) (st en : Int × Int) (pp ep ca : Bool) :
    (mkMove b st en pp ep ca).pieceCaptured =
      if ep then (if getSq b st.1 st.2 = ('b', 'p') then (('w', 'p') : Cell) else ('b', 'p'))
      else getSq b en.1 en.2 := rfl

theorem mkMove_isPawnPromotion (b : Board) (st en : Int × Int) (pp ep ca : Bool) :
    (mkMove b st en pp ep ca).isPawnPromotion = pp := rfl

theorem mkMove_promotedPiece (b : Board) (st en : Int × Int) (pp ep ca : Bool) :
    (mkMove b st en pp ep ca).promotedPiece = 'Q' := rfl

theorem mkMove_isEnpassantMove (b : Board) (st en : Int × Int) (pp ep ca : Bool) :
    (mkMove b st en pp ep ca).isEnpassantMove = ep := rfl

theorem mkMove_isCastleMove (b : Board) (st en : Int × Int) (pp ep ca : Bool) :
    (mkMove b st en pp ep ca).isCastleMove = ca := rfl

/-- The make-then-undo write sequence of an ordinary move cancels out. -/
theorem plain_roundtrip (b : Board) (r1 c1 r2 c2 : Int) (v : Cell) :
    setSq (setSq (setSq (setSq b r1 c1 emptyCell) r2 c2 v) r1 c1 (getSq b r1 c1)) r2 c2
      (getSq b r2 c2) = b := by
  by_cases hse : r1 = r2 ∧ c1 = c2
  · obtain ⟨h1, h2⟩ := hse
    subst h1
    subst h2
    rw [setSq_setSq_same, setSq_setSq_same, setSq_setSq_same, setSq_getSq_self]
  · rw [setSq_comm (setSq b r1 c1 emptyCell) r2 c2 r1 c1 v (getSq b r1 c1) hse,
      setSq_setSq_same, setSq_setSq_same, setSq_getSq_self, setSq_getSq_self]

theorem undo_make_board_plain (s : GameState) (st en : Int × Int) (pp : Bool) :
    (undoMove (makeMove s (mkMove s.board st en pp false false))).board = s.board := by
  have he := undoMove_eq (makeMove s (mkMove s.board st en pp false false))
    (mkMove s.board st en pp false false) (makeMove_getLast s _)
  rw [he]
  dsimp only
  rw [makeMove_board]
  simp only [mkMove_startRow, mkMove_startCol, mkMove_endRow, mkMove_endCol,
    mkMove_pieceMoved, mkMove_pieceCaptured, mkMove_isPawnPromotion, mkMove_promotedPiece,
    mkMove_isEnpassantMove, mkMove_isCastleMove, Bool.false_eq_true, if_false]
  by_cases hpp : pp = true
  · rw [if_pos hpp, setSq_setSq_same]
    exact plain_roundtrip s.board st.1 st.2 en.1 en.2 _
  · rw [if_neg hpp]
    exact plain_roundtrip s.board st.1 st.2 en.1 en.2 _

theorem undo_make_board_ep (s : GameState) (st en : Int × Int)
    (hEmpty : getSq s.board en.1 en.2 = emptyCell)
    (hPawn : getSq s.board st.1 en.2 =
      (if getSq s.board st.1 st.2 = ('b', 'p') then (('w', 'p') : Cell) else ('b', 'p')))
    (hr : en.1 = st.1 - 1 ∨ en.1 = st.1 + 1)
    (hc : en.2 = st.2 - 1 ∨ en.2 = st.2 + 1) :
    (undoMove (makeMove s (mkMove s.board st en false true false))).board = s.board := by
  have hne_st_en : ¬(st.1 = en.1 ∧ st.2 = en.2) := by
    rintro ⟨h1, _⟩
    rcases hr with h | h <;> omega
  have hne_en_st : ¬(en.1 = st.1 ∧ en.2 = st.2) := by
    rintro ⟨h1, _⟩
    rcases hr with h | h <;> omega
  have hne_st_q : ¬(st.1 = st.1 ∧ st.2 = en.2) := by
    rintro ⟨_, h2⟩
    rcases hc with h | h <;> omega
  have hne_en_q : ¬(en.1 = st.1 ∧ en.2 = en.2) := by
    rintro ⟨h1, _⟩
    rcases hr with h | h <;> omega
  have he := undoMove_eq (makeMove s (mkMove s.board st en false true false))
    (mkMove s.board st en false true false) (makeMove_getLast s _)
  rw [he]
  dsimp only
  rw [makeMove_board]
  simp only [mkMove_startRow, mkMove_startCol, mkMove_endRow, mkMove_endCol,
    mkMove_pieceMoved, mkMove_pieceCaptured, mkMove_isPawnPromotion, mkMove_promotedPiece,
    mkMove_isEnpassantMove, mkMove_isCastleMove, Bool.false_eq_true, if_false, if_true]
  rw [setSq_setSq_same]
  rw [setSq_comm _ st.1 en.2 st.1 st.2 emptyCell (getSq s.board st.1 st.2) hne_st_q]
  rw [setSq_comm _ en.1 en.2 st.1 st.2 (getSq s.board st.1 st.2) (getSq s.board st.1 st.2)
    hne_st_en]
  rw [setSq_setSq_same, setSq_getSq_self]
  rw [setSq_comm _ st.1 en.2 en.1 en.2 emptyCell emptyCell hne_en_q]
  rw [setSq_setSq_same]
  rw [setSq_setSq_same]
  rw [show setSq s.board en.1 en.2 emptyCell = s.board from by
    rw [← hEmpty]; exact setSq_getSq_self s.board en.1 en.2]
  rw [show (if getSq s.board st.1 st.2 = ('b', 'p') then (('w', 'p') : Cell) else ('b', 'p')) =
      getSq s.board st.1 en.2 from hPawn.symm]
  exact setSq_getSq_self s.board st.1 en.2

/-- The rook shuffle of castling, done and undone, cancels out. -/
theorem rook_pair_roundtrip (b : Board) (a c1 c3 : Int) (h13 : ¬c1 = c3)
    (hA : getSq b a c1 = emptyCell) :
    setSq (setSq (setSq b a c1 (getSq b a c3)) a c3 (getSq b a c3)) a c1 emptyCell = b := by
  rw [setSq_comm (setSq b a c1 (getSq b a c3)) a c3 a c1 (getSq b a c3) emptyCell
    (by rintro ⟨_, h⟩; exact h13 h)]
  rw [setSq_setSq_same]
  rw [show setSq b a c1 emptyCell = b from by rw [← hA]; exact setSq_getSq_self b a c1]
  exact setSq_getSq_self b a c3

theorem undo_make_board_castle_ks (s : GameState) (st : Int × Int)
    (hd : Dims8 s.board)
    (ha0 : 0 ≤ st.1) (ha8 : st.1 < 8) (hk10 : 0 ≤ st.2 + 1) (hk18 : st.2 + 1 < 8)
    (hA : getSq s.board st.1 (st.2 + 1) = emptyCell) :
    (undoMove (makeMove s (mkMove s.board st ((st.1, st.2 + 2) : Int × Int)
      false false true))).board = s.board := by
  have he := undoMove_eq (makeMove s (mkMove s.board st (st.1, st.2 + 2) false false true))
    (mkMove s.board st (st.1, st.2 + 2) false false true) (makeMove_getLast s _)
  rw [he]
  dsimp only
  rw [makeMove_board]
  simp only [mkMove_startRow, mkMove_startCol, mkMove_endRow, mkMove_endCol,
    mkMove_pieceMoved, mkMove_pieceCaptured, mkMove_isPawnPromotion, mkMove_promotedPiece,
    mkMove_isEnpassantMove, mkMove_isCastleMove, Bool.false_eq_true, if_false, if_true]
  have hc2 : st.2 + 2 - st.2 = 2 := by omega
  have hsub : st.2 + 2 - 1 = st.2 + 1 := by omega
  have hadd : st.2 + 2 + 1 = st.2 + 3 := by omega
  simp only [hc2, hsub, hadd, eq_self_iff_true, if_true]
  have hRx : getSq (setSq (setSq s.board st.1 st.2 emptyCell) st.1 (st.2 + 2)
      (getSq s.board st.1 st.2)) st.1 (st.2 + 3) = getSq s.board st.1 (st.2 + 3) := by
    rw [getSq_setSq_ne _ st.1 (st.2 + 2) st.1 (st.2 + 3) _ (by rintro ⟨_, h⟩; omega),
      getSq_setSq_ne _ st.1 st.2 st.1 (st.2 + 3) _ (by rintro ⟨_, h⟩; omega)]
  rw [hRx]
  have hdB2 : Dims8 (setSq (setSq s.board st.1 st.2 emptyCell) st.1 (st.2 + 2)
      (getSq s.board st.1 st.2)) := dims8_setSq _ _ _ (dims8_setSq _ _ _ hd)
  have hU2A : getSq (setSq (setSq (setSq (setSq (setSq (setSq s.board st.1 st.2 emptyCell)
      st.1 (st.2 + 2) (getSq s.board st.1 st.2)) st.1 (st.2 + 1)
      (getSq s.board st.1 (st.2 + 3))) st.1 (st.2 + 3) emptyCell) st.1 st.2
      (getSq s.board st.1 st.2)) st.1 (st.2 + 2) (getSq s.board st.1 (st.2 + 2)))
      st.1 (st.2 + 1) = getSq s.board st.1 (st.2 + 3) := by
    rw [getSq_setSq_ne _ st.1 (st.2 + 2) st.1 (st.2 + 1) _ (by rintro ⟨_, h⟩; omega),
      getSq_setSq_ne _ st.1 st.2 st.1 (st.2 + 1) _ (by rintro ⟨_, h⟩; omega),
      getSq_setSq_ne _ st.1 (st.2 + 3) st.1 (st.2 + 1) _ (by rintro ⟨_, h⟩; omega)]
    exact getSq_setSq_self _ st.1 (st.2 + 1) _ hdB2 ha0 ha8 hk10 hk18
  rw [hU2A]
  rw [setSq_comm _ st.1 (st.2 + 3) st.1 st.2 emptyCell (getSq s.board st.1 st.2)
    (by rintro ⟨_, h⟩; omega)]
  rw [setSq_comm _ st.1 (st.2 + 1) st.1 st.2 (getSq s.board st.1 (st.2 + 3))
    (getSq s.board st.1 st.2) (by rintro ⟨_, h⟩; omega)]
  rw [setSq_comm _ st.1 (st.2 + 2) st.1 st.2 (getSq s.board st.1 st.2)
    (getSq s.board st.1 st.2) (by rintro ⟨_, h⟩; omega)]
  rw [setSq_setSq_same s.board st.1 st.2 emptyCell (getSq s.board st.1 st.2)]
  rw [setSq_getSq_self s.board st.1 st.2]
  rw [setSq_comm _ st.1 (st.2 + 3) st.1 (st.2 + 2) emptyCell (getSq s.board st.1 (st.2 + 2))
    (by rintro ⟨_, h⟩; omega)]
  rw [setSq_comm _ st.1 (st.2 + 1) st.1 (st.2 + 2) (getSq s.board st.1 (st.2 + 3))
    (getSq s.board st.1 (st.2 + 2)) (by rintro ⟨_, h⟩; omega)]
  rw [setSq_setSq_same s.board st.1 (st.2 + 2) (getSq s.board st.1 st.2)
    (getSq s.board st.1 (st.2 + 2))]
  rw [setSq_getSq_self s.board st.1 (st.2 + 2)]
  rw [setSq_setSq_same (setSq s.board st.1 (st.2 + 1) (getSq s.board st.1 (st.2 + 3)))
    st.1 (st.2 + 3) emptyCell (getSq s.board st.1 (st.2 + 3))]
  exact rook_pair_roundtrip s.board st.1 (st.2 + 1) (st.2 + 3) (by omega) hA

theorem undo_make_board_castle_qs (s : GameState) (st : Int × Int)
    (hd : Dims8 s.board)
    (ha0 : 0 ≤ st.1) (ha8 : st.1 < 8) (hk10 : 0 ≤ st.2 - 1) (hk18 : st.2 - 1 < 8)
    (hA : getSq s.board st.1 (st.2 - 1) = emptyCell) :
    (undoMove (makeMove s (mkMove s.board st ((st.1, st.2 - 2) : Int × Int)
      false false true))).board = s.board := by
  have he := undoMove_eq (makeMove s (mkMove s.board st (st.1, st.2 - 2) false false true))
    (mkMove s.board st (st.1, st.2 - 2) false false true) (makeMove_getLast s _)
  rw [he]
  dsimp only
  rw [makeMove_board]
  simp only [mkMove_startRow, mkMove_startCol, mkMove_endRow, mkMove_endCol,
    mkMove_pieceMoved, mkMove_pieceCaptured, mkMove_isPawnPromotion, mkMove_promotedPiece,
    mkMove_isEnpassantMove, mkMove_isCastleMove, Bool.false_eq_true, if_false, if_true]
  have hcm2 : st.2 - 2 - st.2 = -2 := by omega
  have hsub : st.2 - 2 + 1 = st.2 - 1 := by omega
  have hadd : st.2 - 2 - 2 = st.2 - 4 := by omega
  have hno : ¬((-2 : Int) = 2) := by omega
  simp only [hcm2, hsub, hadd, if_neg hno, eq_self_iff_true, if_true]
  have hRx : getSq (setSq (setSq s.board st.1 st.2 emptyCell) st.1 (st.2 - 2)
      (getSq s.board st.1 st.2)) st.1 (st.2 - 4) = getSq s.board st.1 (st.2 - 4) := by
    rw [getSq_setSq_ne _ st.1 (st.2 - 2) st.1 (st.2 - 4) _ (by rintro ⟨_, h⟩; omega),
      getSq_setSq_ne _ st.1 st.2 st.1 (st.2 - 4) _ (by rintro ⟨_, h⟩; omega)]
  rw [hRx]
  have hdB2 : Dims8 (setSq (setSq s.board st.1 st.2 emptyCell) st.1 (st.2 - 2)
      (getSq s.board st.1 st.2)) := dims8_setSq _ _ _ (dims8_setSq _ _ _ hd)
  have hU2A : getSq (setSq (setSq (setSq (setSq (setSq (setSq s.board st.1 st.2 emptyCell)
      st.1 (st.2 - 2) (getSq s.board st.1 st.2)) st.1 (st.2 - 1)
      (getSq s.board st.1 (st.2 - 4))) st.1 (st.2 - 4) emptyCell) st.1 st.2
      (getSq s.board st.1 st.2)) st.1 (st.2 - 2) (getSq s.board st.1 (st.2 - 2)))
      st.1 (st.2 - 1) = getSq s.board st.1 (st.2 - 4) := by
    rw [getSq_setSq_ne _ st.1 (st.2 - 2) st.1 (st.2 - 1) _ (by rintro ⟨_, h⟩; omega),
      getSq_setSq_ne _ st.1 st.2 st.1 (st.2 - 1) _ (by rintro ⟨_, h⟩; omega),
      getSq_setSq_ne _ st.1 (st.2 - 4) st.1 (st.2 - 1) _ (by rintro ⟨_, h⟩; omega)]
    exact getSq_setSq_self _ st.1 (st.2 - 1) _ hdB2 ha0 ha8 hk10 hk18
  rw [hU2A]
  rw [setSq_comm _ st.1 (st.2 - 4) st.1 st.2 emptyCell (getSq s.board st.1 st.2)
    (by rintro ⟨_, h⟩; omega)]
  rw [setSq_comm _ st.1 (st.2 - 1) st.1 st.2 (getSq s.board st.1 (st.2 - 4))
    (getSq s.board st.1 st.2) (by rintro ⟨_, h⟩; omega)]
  rw [setSq_comm _ st.1 (st.2 - 2) st.1 st.2 (getSq s.board st.1 st.2)
    (getSq s.board st.1 st.2) (by rintro ⟨_, h⟩; omega)]
  rw [setSq_setSq_same s.board st.1 st.2 emptyCell (getSq s.board st.1 st.2)]
  rw [setSq_getSq_self s.board st.1 st.2]
  rw [setSq_comm _ st.1 (st.2 - 4) st.1 (st.2 - 2) emptyCell (getSq s.board st.1 (st.2 - 2))
    (by rintro ⟨_, h⟩; omega)]
  rw [setSq_comm _ st.1 (st.2 - 1) st.1 (st.2 - 2) (getSq s.board st.1 (st.2 - 4))
    (getSq s.board st.1 (st.2 - 2)) (by rintro ⟨_, h⟩; omega)]
  rw [setSq_setSq_same s.board st.1 (st.2 - 2) (getSq s.board st.1 st.2)
    (getSq s.board st.1 (st.2 - 2))]
  rw [setSq_getSq_self s.board st.1 (st.2 - 2)]
  rw [setSq_setSq_same (setSq s.board st.1 (st.2 - 1) (getSq s.board st.1 (st.2 - 4)))
    st.1 (st.2 - 4) emptyCell (getSq s.board st.1 (st.2 - 4))]
  exact rook_pair_roundtrip s.board st.1 (st.2 - 1) (st.2 - 4) (by omega) hA

/-- Main restoration lemma: a move of a generated shape, made and undone on a
state satisfying the reachability invariants, restores all six observable
components. -/
theorem restore_of_moveOk (s : GameState) (m : Move)
    (hok : MoveOk s m)
    (hd : Dims8 s.board) (hep : EPInv s) (hW : KingSyncW s) (hB : KingSyncB s)
    (hrw : RightsHomeW s) (hrb : RightsHomeB s)
    (hcr : s.castleRightLog.getLast? = some s.currentCastlingRights)
    (hel : s.enpassantPossibleLog.getLast? = some s.enpassantPossible) :
    RestoreSpec s m := by
  have hpm : m.pieceMoved = getSq s.board m.startRow m.startCol := by
    rcases hok with ⟨st, en, pp, hm, _⟩ | ⟨st, en, hm, _⟩ | ⟨st, en, hm, _⟩ <;>
      subst hm <;> rfl
  have hWst : m.pieceMoved = ('w', 'K') →
      ((m.startRow, m.startCol) : Int × Int) = s.whiteKingLocation := by
    intro h
    rw [hpm] at h
    exact hW _ _ h
  have hBst : m.pieceMoved = ('b', 'K') →
      ((m.startRow, m.startCol) : Int × Int) = s.blackKingLocation := by
    intro h
    rw [hpm] at h
    exact hB _ _ h
  have hn := undo_make_nonboard s m hcr hel hWst hBst
  refine ⟨?_, hn.1, hn.2.1, hn.2.2.1, hn.2.2.2.1, hn.2.2.2.2⟩
  rcases hok with ⟨st, en, pp, hm, _⟩ | ⟨st, en, hm, hEpSome, hwcase, hbcase, hcg⟩ |
    ⟨st, en, hm, hrow, hwc, hbc, hgeom⟩
  · subst hm
    exact undo_make_board_plain s st en pp
  · subst hm
    obtain ⟨hEmpty, hwEP, hbEP⟩ := hep en.1 en.2 hEpSome
    by_cases hwtm : s.whiteToMove = true
    · obtain ⟨hpmw, hr1⟩ := hwcase hwtm
      obtain ⟨her, hbehind⟩ := hwEP hwtm
      have hst1 : st.1 = 3 := by omega
      refine undo_make_board_ep s st en hEmpty ?_ (Or.inl hr1) hcg
      rw [show (if getSq s.board st.1 st.2 = ('b', 'p') then (('w', 'p') : Cell)
          else ('b', 'p')) = (('b', 'p') : Cell) from by rw [hpmw]; simp, hst1]
      exact hbehind
    · have hwtmf : s.whiteToMove = false := by
        cases hb2 : s.whiteToMove
        · rfl
        · exact absurd hb2 hwtm
      obtain ⟨hpmb, hr1⟩ := hbcase hwtmf
      obtain ⟨her, hbehind⟩ := hbEP hwtmf
      have hst1 : st.1 = 4 := by omega
      refine undo_make_board_ep s st en hEmpty ?_ (Or.inr hr1) hcg
      rw [show (if getSq s.board st.1 st.2 = ('b', 'p') then (('w', 'p') : Cell)
          else ('b', 'p')) = (('w', 'p') : Cell) from by rw [hpmb]; simp, hst1]
      exact hbehind
  · have hst : st = s.whiteKingLocation ∨ st = s.blackKingLocation := by
      by_cases hwtm : s.whiteToMove = true
      · exact Or.inl (hwc hwtm).1
      · have hwtmf : s.whiteToMove = false := by
          cases hb2 : s.whiteToMove
          · rfl
          · exact absurd hb2 hwtm
        exact Or.inr (hbc hwtmf).1
    have hstv : st = ((7, 4) : Int × Int) ∨ st = ((0, 4) : Int × Int) := by
      by_cases hwtm : s.whiteToMove = true
      · exact Or.inl ((hwc hwtm).1.trans (hrw (hwc hwtm).2))
      · have hwtmf : s.whiteToMove = false := by
          cases hb2 : s.whiteToMove
          · rfl
          · exact absurd hb2 hwtm
        exact Or.inr ((hbc hwtmf).1.trans (hrb (hbc hwtmf).2))
    rcases hgeom with ⟨hen2, hA, _⟩ | ⟨hen2, hA, _⟩
    · have hen : en = ((st.1, st.2 + 2) : Int × Int) := by
        rcases en with ⟨e1, e2⟩
        simp only [Prod.mk.injEq]
        exact ⟨hrow, hen2⟩
      subst hen
      subst hm
      rcases hstv with h4 | h4 <;> subst h4
      · exact undo_make_board_castle_ks s (7, 4) hd (by omega) (by omega) (by omega)
          (by omega) hA
      · exact undo_make_board_castle_ks s (0, 4) hd (by omega) (by omega) (by omega)
          (by omega) hA
    · have hen : en = ((st.1, st.2 - 2) : Int × Int) := by
        rcases en with ⟨e1, e2⟩
        simp only [Prod.mk.injEq]
        exact ⟨hrow, hen2⟩
      subst hen
      subst hm
      rcases hstv with h4 | h4 <;> subst h4
      · exact undo_make_board_castle_qs s (7, 4) hd (by omega) (by omega) (by omega)
          (by omega) hA
      · exact undo_make_board_castle_qs s (0, 4) hd (by omega) (by omega) (by omega)
          (by omega) hA

/-! Shapes of the moves produced by the per-piece generators. -/

theorem foldl_moves_shape {α : Type} (Q : Move → Prop) (f : List Move → α → List Move)
    (hf : ∀ ms a m, m ∈ f ms a → m ∈ ms ∨ Q m) :
    ∀ (l : List α) (ms : List Move) (m : Move), m ∈ l.foldl f ms → m ∈ ms ∨ Q m := by
  intro l
  induction l with
  | nil => intro ms m hm; exact Or.inl hm
  | cons a l ih =>
    intro ms m hm
    rcases ih (f ms a) m hm with h | h
    · exact hf ms a m h
    · exact Or.inr h

theorem slideRay_shape (b : Board) (e : Char) (pn : Bool) (pd : Option (Int × Int))
    (r c : Int) (d : Int × Int) :
    ∀ (is : List Int) (m : Move), m ∈ slideRay b e pn pd r c d is →
      ∃ en : Int × Int, m = mkMove b (r, c) en false false false := by
  intro is
  induction is with
  | nil => intro m hm; exact absurd hm (List.not_mem_nil m)
  | cons i is ih =>
    intro m hm
    simp only [slideRay] at hm
    split_ifs at hm
    · rcases List.mem_cons.mp hm with h | h
      · exact ⟨_, h⟩
      · exact ih m h
    · exact ⟨_, List.mem_singleton.mp hm⟩
    · exact absurd hm (List.not_mem_nil m)
    · exact absurd hm (List.not_mem_nil m)
    · exact absurd hm (List.not_mem_nil m)

theorem getKnightMove_shape (s : GameState) (r c : Int) (moves : List Move) :
    ∀ m ∈ (getKnightMove s r c moves).1, m ∈ moves ∨
      ∃ en : Int × Int, m = mkMove s.board (r, c) en false false false := by
  intro m hm
  simp only [getKnightMove] at hm
  split_ifs at hm
  all_goals
    first
      | exact Or.inl hm
      | (refine foldl_moves_shape
           (fun mv => ∃ en : Int × Int, mv = mkMove s.board (r, c) en false false false)
           _ ?_ knightOffsets moves m hm
         intro ms a mv hmv
         try dsimp only at hmv
         split_ifs at hmv
         all_goals
           first
             | exact Or.inl hmv
             | (rcases List.mem_append.mp hmv with h | h
                · exact Or.inl h
                · exact Or.inr ⟨_, List.mem_singleton.mp h⟩))

theorem getBishopMove_shape (s : GameState) (r c : Int) (moves : List Move) :
    ∀ m ∈ (getBishopMove s r c moves).1, m ∈ moves ∨
      ∃ en : Int × Int, m = mkMove s.board (r, c) en false false false := by
  intro m hm
  simp only [getBishopMove] at hm
  refine foldl_moves_shape
    (fun mv => ∃ en : Int × Int, mv = mkMove s.board (r, c) en false false false)
    _ ?_ _ moves m hm
  intro ms a mv hmv
  rcases List.mem_append.mp hmv with h | h
  · exact Or.inl h
  · exact Or.inr (slideRay_shape _ _ _ _ _ _ _ _ mv h)

theorem getRockMove_shape (s : GameState) (r c : Int) (moves : List Move) :
    ∀ m ∈ (getRockMove s r c moves).1, m ∈ moves ∨
      ∃ en : Int × Int, m = mkMove s.board (r, c) en false false false := by
  intro m hm
  simp only [getRockMove] at hm
  refine foldl_moves_shape
    (fun mv => ∃ en : Int × Int, mv = mkMove s.board (r, c) en false false false)
    _ ?_ _ moves m hm
  intro ms a mv hmv
  rcases List.mem_append.mp hmv with h | h
  · exact Or.inl h
  · exact Or.inr (slideRay_shape _ _ _ _ _ _ _ _ mv h)

theorem getQueenMove_shape (s : GameState) (r c : Int) (moves : List Move) :
    ∀ m ∈ (getQueenMove s r c moves).1, m ∈ moves ∨
      ∃ en : Int × Int, m = mkMove s.board (r, c) en false false false := by
  intro m hm
  simp only [getQueenMove] at hm
  rcases getRockMove_shape _ r c _ m hm with h | h
  · exact getBishopMove_shape s r c moves m h
  · exact Or.inr h

theorem kingRowMoves_getD_small : ∀ i : Nat, (kingRowMoves.getD i 0).natAbs ≤ 1
  | 0 => by decide
  | 1 => by decide
  | 2 => by decide
  | 3 => by decide
  | 4 => by decide
  | 5 => by decide
  | 6 => by decide
  | 7 => by decide
  | n + 8 => by
    have h : kingRowMoves.getD (n + 8) 0 = 0 := rfl
    rw [h]
    decide

theorem getKingMove_shape (s : GameState) (r c : Int) (moves : List Move) :
    ∀ m ∈ (getKingMove s r c moves).1, m ∈ moves ∨
      ∃ en : Int × Int, m = mkMove s.board (r, c) en false false false ∧
        (r - en.1).natAbs ≤ 1 := by
  intro m hm
  simp only [getKingMove] at hm
  refine (foldl_invariant
    (fun acc : List Move × GameState =>
      acc.2.board = s.board ∧
      ∀ mv ∈ acc.1, mv ∈ moves ∨
        ∃ en : Int × Int, mv = mkMove s.board (r, c) en false false false ∧
          (r - en.1).natAbs ≤ 1)
    _ (List.range 8) (moves, s) ⟨rfl, fun mv hmv => Or.inl hmv⟩ ?_).2 m hm
  rintro ⟨ms, st⟩ i ⟨hb, hms⟩
  dsimp only
  split_ifs
  all_goals refine ⟨hb, ?_⟩
  all_goals
    first
      | exact hms
      | (intro mv hmv
         rcases List.mem_append.mp hmv with h | h
         · exact hms mv h
         · refine Or.inr ⟨_, by rw [← hb]; exact List.mem_singleton.mp h, ?_⟩
           have hsm := kingRowMoves_getD_small i
           dsimp only
           omega)

theorem pawnForwardStage_shape (b : Board) (r c ma sr br : Int) (pn : Bool)
    (pd : Option (Int × Int)) (moves : List Move) (pp0 : Bool) :
    ∀ m ∈ (pawnForwardStage b r c ma sr br pn pd moves pp0).1, m ∈ moves ∨
      (∃ pp : Bool, m = mkMove b (r, c) (r + ma, c) pp false false) ∨
      (m = mkMove b (r, c) (r + 2 * ma, c) false false false ∧ r = sr ∧
        getSq b (r + ma) c = emptyCell ∧ getSq b (r + 2 * ma) c = emptyCell) := by
  intro m hm
  simp only [pawnForwardStage] at hm
  split_ifs at hm with h1 h2 h3 h4 h5 h6
  all_goals try dsimp only at hm
  all_goals try simp only [List.mem_append, List.mem_singleton] at hm
  all_goals
    first
      | exact Or.inl hm
      | (rcases hm with (hm | hm) | hm
         · exact Or.inl hm
         · exact Or.inr (Or.inl ⟨_, hm⟩)
         · exact Or.inr (Or.inr ⟨hm, And.left (by assumption), h1,
             And.right (by assumption)⟩))
      | (rcases hm with hm | hm
         · exact Or.inl hm
         · exact Or.inr (Or.inl ⟨_, hm⟩))

theorem pawnCaptureLeft_shape (s : GameState) (r c ma br : Int) (e : Char)
    (kr kc : Int) (pn : Bool) (pd : Option (Int × Int)) (moves : List Move) (pp0 : Bool) :
    ∀ m ∈ (pawnCaptureLeft s r c ma br e kr kc pn pd moves pp0).1, m ∈ moves ∨
      (∃ pp : Bool, m = mkMove s.board (r, c) (r + ma, c - 1) pp false false) ∨
      (m = mkMove s.board (r, c) (r + ma, c - 1) false true false ∧
        some ((r + ma, c - 1) : Int × Int) = s.enpassantPossible) := by
  intro m hm
  simp only [pawnCaptureLeft] at hm
  split_ifs at hm with h1 h2 h3 h4 h5
  all_goals try dsimp only at hm
  all_goals try simp only [List.mem_append, List.mem_singleton] at hm
  all_goals
    first
      | exact Or.inl hm
      | (rcases hm with hm | hm
         · exact Or.inl hm
         · first
             | exact Or.inr (Or.inl ⟨_, hm⟩)
             | exact Or.inr (Or.inr ⟨hm, by assumption⟩))

theorem pawnCaptureRight_shape (s : GameState) (r c ma br : Int) (e : Char)
    (kr kc : Int) (pn : Bool) (pd : Option (Int × Int)) (moves : List Move) (pp0 : Bool) :
    ∀ m ∈ pawnCaptureRight s r c ma br e kr kc pn pd moves pp0, m ∈ moves ∨
      (∃ pp : Bool, m = mkMove s.board (r, c) (r + ma, c + 1) pp false false) ∨
      (m = mkMove s.board (r, c) (r + ma, c + 1) false true false ∧
        some ((r + ma, c + 1) : Int × Int) = s.enpassantPossible) := by
  intro m hm
  simp only [pawnCaptureRight] at hm
  split_ifs at hm with h1 h2 h3 h4 h5
  all_goals try dsimp only at hm
  all_goals try simp only [List.mem_append, List.mem_singleton] at hm
  all_goals
    first
      | exact Or.inl hm
      | (rcases hm with hm | hm
         · exact Or.inl hm
         · first
             | exact Or.inr (Or.inl ⟨_, hm⟩)
             | exact Or.inr (Or.inr ⟨hm, by assumption⟩))

theorem getPawnMove_shape (s : GameState) (r c : Int) (moves : List Move) :
    ∀ m ∈ (getPawnMove s r c moves).1, m ∈ moves ∨
      (∃ en : Int × Int, ∃ pp : Bool, m = mkMove s.board (r, c) en pp false false ∧
        ((r - en.1).natAbs = 2 →
          en.2 = c ∧ r = (if s.whiteToMove then (6 : Int) else 1) ∧
          en.1 = r + 2 * (if s.whiteToMove then (-1 : Int) else 1) ∧
          getSq s.board (r + (if s.whiteToMove then (-1 : Int) else 1)) c = emptyCell)) ∨
      (∃ en : Int × Int, m = mkMove s.board (r, c) en false true false ∧
        some en = s.enpassantPossible ∧
        en.1 = r + (if s.whiteToMove then (-1 : Int) else 1) ∧
        (en.2 = c - 1 ∨ en.2 = c + 1)) := by
  intro m hm
  rcases hw : s.whiteToMove with _ | _
  all_goals
    simp only [getPawnMove, hw, Bool.false_eq_true, Bool.true_eq_false, if_false, if_true,
      eq_self_iff_true] at hm ⊢
  all_goals
    rcases pawnCaptureRight_shape _ _ _ _ _ _ _ _ _ _ _ _ m hm with hm | ⟨pp, hsh⟩ | ⟨hsh, hepEq⟩
  · rcases pawnCaptureLeft_shape _ _ _ _ _ _ _ _ _ _ _ _ m hm with hm | ⟨pp, hsh⟩ | ⟨hsh, hepEq⟩
    · rcases pawnForwardStage_shape _ _ _ _ _ _ _ _ _ _ m hm with hm | ⟨pp, hsh⟩ |
        ⟨hsh, hsr, hmid, hfar⟩
      · exact Or.inl hm
      · exact Or.inr (Or.inl ⟨_, pp, hsh, fun h2 => absurd h2 (by dsimp only; omega)⟩)
      · exact Or.inr (Or.inl ⟨_, false, hsh, fun h2 => ⟨rfl, hsr, rfl, hmid⟩⟩)
    · exact Or.inr (Or.inl ⟨_, pp, hsh, fun h2 => absurd h2 (by dsimp only; omega)⟩)
    · exact Or.inr (Or.inr ⟨_, hsh, hepEq.symm ▸ hepEq, rfl, Or.inl rfl⟩)
  · exact Or.inr (Or.inl ⟨_, pp, hsh, fun h2 => absurd h2 (by dsimp only; omega)⟩)
  · exact Or.inr (Or.inr ⟨_, hsh, hepEq.symm ▸ hepEq, rfl, Or.inr rfl⟩)
  · rcases pawnCaptureLeft_shape _ _ _ _ _ _ _ _ _ _ _ _ m hm with hm | ⟨pp, hsh⟩ | ⟨hsh, hepEq⟩
    · rcases pawnForwardStage_shape _ _ _ _ _ _ _ _ _ _ m hm with hm | ⟨pp, hsh⟩ |
        ⟨hsh, hsr, hmid, hfar⟩
      · exact Or.inl hm
      · exact Or.inr (Or.inl ⟨_, pp, hsh, fun h2 => absurd h2 (by dsimp only; omega)⟩)
      · exact Or.inr (Or.inl ⟨_, false, hsh, fun h2 => ⟨rfl, hsr, rfl, hmid⟩⟩)
    · exact Or.inr (Or.inl ⟨_, pp, hsh, fun h2 => absurd h2 (by dsimp only; omega)⟩)
    · exact Or.inr (Or.inr ⟨_, hsh, hepEq.symm ▸ hepEq, rfl, Or.inl rfl⟩)
  · exact Or.inr (Or.inl ⟨_, pp, hsh, fun h2 => absurd h2 (by dsimp only; omega)⟩)
  · exact Or.inr (Or.inr ⟨_, hsh, hepEq.symm ▸ hepEq, rfl, Or.inr rfl⟩)

theorem foldl_invariant_mem {α β : Type} (P : β → Prop) (f : β → α → β) :
    ∀ (l : List α) (b : β), P b → (∀ b a, a ∈ l → P b → P (f b a)) → P (l.foldl f b)
  | [], _, hb, _ => hb
  | a :: l, b, hb, hf =>
    foldl_invariant_mem P f l (f b a) (hf b a (List.mem_cons_self a l) hb)
      (fun b1 a1 ha1 hb1 => hf b1 a1 (List.mem_cons_of_mem a ha1) hb1)

theorem getAllPossibleMoves_shape (s : GameState) (hd : Dims8 s.board) :
    ∀ m ∈ (getAllPossibleMoves s).1, PlainOk s m ∨ EpOk s m := by
  intro m hm
  unfold getAllPossibleMoves at hm
  refine (foldl_invariant_mem
    (fun acc : List Move × GameState =>
      ScanFrame s acc.2 ∧ ∀ mv ∈ acc.1, PlainOk s mv ∨ EpOk s mv)
    _ (List.range s.board.length) ([], s)
    ⟨scanFrame_refl s, by intro mv hmv; exact absurd hmv (List.not_mem_nil mv)⟩ ?_).2 m hm
  rintro ⟨ms, st⟩ rn hrn ⟨hf, hms⟩
  have hrnL : rn < s.board.length := List.mem_range.mp hrn
  have hrn8 : (rn : Int) < 8 := by
    have h8 := hd.1
    omega
  apply foldl_invariant_mem
    (fun acc : List Move × GameState =>
      ScanFrame s acc.2 ∧ ∀ mv ∈ acc.1, PlainOk s mv ∨ EpOk s mv)
    _ (List.range (s.board.getD rn []).length) (ms, st) ⟨hf, hms⟩
  rintro ⟨ms1, st1⟩ cn hcn ⟨hf1, hms1⟩
  have hcn8 : (cn : Int) < 8 := by
    have hrow := hd.2 _ (listGetD_mem s.board rn [] hrnL)
    have hlt := List.mem_range.mp hcn
    omega
  obtain ⟨hb, hw, hml, hcm, hsm, hic, hck, hbh, hep, hel, hcr, hcl⟩ := hf1
  dsimp only [gapmCellStep]
  split_ifs with hg hp hN hB hR hQ hK
  -- pawn
  · refine ⟨⟨hb, hw, hml, hcm, hsm, hic, hck, hbh, hep, hel, hcr, hcl⟩, ?_⟩
    intro mv hmv
    rcases getPawnMove_shape st1 rn cn ms1 mv hmv with h | ⟨en, pp, heq, hcl2⟩ |
      ⟨en, heq, hepEq, he1, he2⟩
    · exact hms1 mv h
    · rw [hb] at heq
      refine Or.inl ⟨(rn, cn), en, pp, heq, ?_⟩
      intro _ h2
      have hcl3 := hcl2 h2
      rw [hb, hw] at hcl3
      obtain ⟨hen2, hrow, hen1, hmid⟩ := hcl3
      refine ⟨hen2, Int.natCast_nonneg cn, hcn8, ?_, ?_⟩
      · intro hwt
        rw [hwt] at hrow hen1 hmid
        simp only [if_true] at hrow hen1 hmid
        have hcell : getSq s.board (rn : Int) (cn : Int) = ('w', 'p') := by
          rcases hg with ⟨h1, h2w⟩ | ⟨h1, h2w⟩
          · rw [← hb]
            exact Prod.ext h1 hp
          · rw [hw, hwt] at h2w
            exact absurd rfl h2w
        have h5 : (rn : Int) + (-1 : Int) = 5 := by omega
        rw [h5] at hmid
        exact ⟨hrow, by omega, hcell, hmid⟩
      · intro hwf
        rw [hwf] at hrow hen1 hmid
        simp only [Bool.false_eq_true, if_false] at hrow hen1 hmid
        have hcell : getSq s.board (rn : Int) (cn : Int) = ('b', 'p') := by
          rcases hg with ⟨h1, h2w⟩ | ⟨h1, h2w⟩
          · rw [hw, hwf] at h2w
            exact absurd h2w (by simp)
          · rw [← hb]
            exact Prod.ext h1 hp
        have h5 : (rn : Int) + (1 : Int) = 2 := by omega
        rw [h5] at hmid
        exact ⟨hrow, by omega, hcell, hmid⟩
    · rw [hb] at heq
      refine Or.inr ⟨(rn, cn), en, heq, (hepEq.trans hep).symm, ?_, ?_, he2⟩
      · intro hwt
        rw [hw, hwt] at he1
        simp only [if_true] at he1
        have hcell : getSq s.board (rn : Int) (cn : Int) = ('w', 'p') := by
          rcases hg with ⟨h1, h2w⟩ | ⟨h1, h2w⟩
          · rw [← hb]
            exact Prod.ext h1 hp
          · rw [hw, hwt] at h2w
            exact absurd rfl h2w
        exact ⟨hcell, by omega⟩
      · intro hwf
        rw [hw, hwf] at he1
        simp only [Bool.false_eq_true, if_false] at he1
        have hcell : getSq s.board (rn : Int) (cn : Int) = ('b', 'p') := by
          rcases hg with ⟨h1, h2w⟩ | ⟨h1, h2w⟩
          · rw [hw, hwf] at h2w
            exact absurd h2w (by simp)
          · rw [← hb]
            exact Prod.ext h1 hp
        exact ⟨hcell, by omega⟩
  -- knight
  · refine ⟨⟨hb, hw, hml, hcm, hsm, hic, hck, hbh, hep, hel, hcr, hcl⟩, ?_⟩
    intro mv hmv
    rcases getKnightMove_shape st1 rn cn ms1 mv hmv with h | ⟨en, heq⟩
    · exact hms1 mv h
    · rw [hb] at heq
      refine Or.inl ⟨(rn, cn), en, false, heq, ?_⟩
      intro hpw _
      rw [← hb] at hpw
      exact absurd (hN ▸ hpw : 'N' = 'p') (by decide)
  -- bishop
  · refine ⟨⟨hb, hw, hml, hcm, hsm, hic, hck, hbh, hep, hel, hcr, hcl⟩, ?_⟩
    intro mv hmv
    rcases getBishopMove_shape st1 rn cn ms1 mv hmv with h | ⟨en, heq⟩
    · exact hms1 mv h
    · rw [hb] at heq
      refine Or.inl ⟨(rn, cn), en, false, heq, ?_⟩
      intro hpw _
      rw [← hb] at hpw
      exact absurd (hB ▸ hpw : 'B' = 'p') (by decide)
  -- rook
  · refine ⟨⟨hb, hw, hml, hcm, hsm, hic, hck, hbh, hep, hel, hcr, hcl⟩, ?_⟩
    intro mv hmv
    rcases getRockMove_shape st1 rn cn ms1 mv hmv with h | ⟨en, heq⟩
    · exact hms1 mv h
    · rw [hb] at heq
      refine Or.inl ⟨(rn, cn), en, false, heq, ?_⟩
      intro hpw _
      rw [← hb] at hpw
      exact absurd (hR ▸ hpw : 'R' = 'p') (by decide)
  -- queen
  · refine ⟨⟨hb, hw, hml, hcm, hsm, hic, hck, hbh, hep, hel, hcr, hcl⟩, ?_⟩
    intro mv hmv
    rcases getQueenMove_shape st1 rn cn ms1 mv hmv with h | ⟨en, heq⟩
    · exact hms1 mv h
    · rw [hb] at heq
      refine Or.inl ⟨(rn, cn), en, false, heq, ?_⟩
      intro hpw _
      rw [← hb] at hpw
      exact absurd (hQ ▸ hpw : 'Q' = 'p') (by decide)
  -- king
  · refine ⟨getKingMove_frame _ _ _ ⟨hb, hw, hml, hcm, hsm, hic, hck, hbh, hep, hel,
      hcr, hcl⟩, ?_⟩
    intro mv hmv
    rcases getKingMove_shape st1 rn cn ms1 mv hmv with h | ⟨en, heq, hd1⟩
    · exact hms1 mv h
    · rw [hb] at heq
      refine Or.inl ⟨(rn, cn), en, false, heq, ?_⟩
      intro _ h2
      dsimp only at h2
      omega
  -- other piece kind
  · exact ⟨⟨hb, hw, hml, hcm, hsm, hic, hck, hbh, hep, hel, hcr, hcl⟩, hms1⟩
  -- not this side to move
  · exact ⟨⟨hb, hw, hml, hcm, hsm, hic, hck, hbh, hep, hel, hcr, hcl⟩, hms1⟩

theorem removeFirstMoveEq_subset : ∀ (l : List Move) (mv m : Move),
    m ∈ removeFirstMoveEq l mv → m ∈ l
  | [], _, _, h => h
  | q :: qs, mv, m, h => by
    simp only [removeFirstMoveEq] at h
    split_ifs at h
    · exact List.mem_cons_of_mem q h
    · rcases List.mem_cons.mp h with h1 | h1
      · exact h1 ▸ List.mem_cons_self q qs
      · exact List.mem_cons_of_mem q (removeFirstMoveEq_subset qs mv m h1)

theorem runFilter_subset (vs : List (Int × Int)) :
    ∀ (n : Nat) (ms : List Move) (m : Move), m ∈ runFilter vs ms n → m ∈ ms := by
  intro n
  induction n with
  | zero => intro ms m h; exact h
  | succ i ih =>
    intro ms m h
    simp only [runFilter] at h
    rcases hg : ms.get? i with _ | mv
    · rw [hg] at h
      exact ih ms m h
    · rw [hg] at h
      dsimp only at h
      split_ifs at h
      · exact removeFirstMoveEq_subset ms mv m (ih _ m h)
      · exact ih ms m h

theorem getKingSideCastleMoves_shape (s : GameState) (r c : Int) (moves : List Move) :
    ∀ m ∈ (getKingSideCastleMoves s r c moves).1, m ∈ moves ∨
      (m = mkMove s.board (r, c) ((r, c + 2) : Int × Int) false false true ∧
        getSq s.board r (c + 1) = emptyCell ∧ getSq s.board r (c + 2) = emptyCell) := by
  intro m hm
  simp only [getKingSideCastleMoves] at hm
  split_ifs at hm with h1 h2 h3
  · exact Or.inl hm
  · exact Or.inl hm
  · rcases List.mem_append.mp hm with h | h
    · exact Or.inl h
    · have hb1 := (squareUnderAttack_frame s r (c + 1)).1
      have hb2 := (squareUnderAttack_frame (squareUnderAttack s r (c + 1)).2 r (c + 2)).1
      rw [hb1] at hb2
      rw [hb2] at h
      exact Or.inr ⟨List.mem_singleton.mp h, h1.1, h1.2⟩
  · exact Or.inl hm

theorem getQueenSideCastleMoves_shape (s : GameState) (r c : Int) (moves : List Move) :
    ∀ m ∈ (getQueenSideCastleMoves s r c moves).1, m ∈ moves ∨
      (m = mkMove s.board (r, c) ((r, c - 2) : Int × Int) false false true ∧
        getSq s.board r (c - 1) = emptyCell ∧ getSq s.board r (c - 2) = emptyCell) := by
  intro m hm
  simp only [getQueenSideCastleMoves] at hm
  split_ifs at hm with h1 h2 h3
  · exact Or.inl hm
  · exact Or.inl hm
  · rcases List.mem_append.mp hm with h | h
    · exact Or.inl h
    · have hb1 := (squareUnderAttack_frame s r (c - 1)).1
      have hb2 := (squareUnderAttack_frame (squareUnderAttack s r (c - 1)).2 r (c - 2)).1
      rw [hb1] at hb2
      rw [hb2] at h
      exact Or.inr ⟨List.mem_singleton.mp h, h1.1, h1.2.1⟩
  · exact Or.inl hm

theorem getCastleMoves_shape (s : GameState) (r c : Int) (moves : List Move) :
    ∀ m ∈ (getCastleMoves s r c moves).1, m ∈ moves ∨
      ∃ en : Int × Int, m = mkMove s.board (r, c) en false false true ∧ en.1 = r ∧
        (s.whiteToMove = true → s.currentCastlingRights.wks = true ∨
          s.currentCastlingRights.wqs = true) ∧
        (s.whiteToMove = false → s.currentCastlingRights.bks = true ∨
          s.currentCastlingRights.bqs = true) ∧
        ((en.2 = c + 2 ∧ getSq s.board r (c + 1) = emptyCell ∧
            getSq s.board r (c + 2) = emptyCell) ∨
          (en.2 = c - 2 ∧ getSq s.board r (c - 1) = emptyCell ∧
            getSq s.board r (c - 2) = emptyCell)) := by
  intro m hm
  simp only [getCastleMoves] at hm
  split_ifs at hm with h1 h2 h3 h4 h5
  · exact Or.inl hm
  -- ks taken, then qs guard on the ks result state
  · obtain ⟨hfk, _, _⟩ :=
      (getKingSideCastleMoves_spec s r c moves : ScanFrame s _ ∧ _)
    rcases getQueenSideCastleMoves_shape _ r c _ m hm with h | ⟨he, hq1, hq2⟩
    · rcases getKingSideCastleMoves_shape s r c moves m h with h0 | ⟨he, hk1, hk2⟩
      · exact Or.inl h0
      · refine Or.inr ⟨(r, c + 2), he, rfl, ?_, ?_, Or.inl ⟨rfl, hk1, hk2⟩⟩
        · intro hwt
          rcases h2 with ⟨_, hr⟩ | ⟨hnw, _⟩
          · exact Or.inl hr
          · exact absurd hwt (by simpa using hnw)
        · intro hwf
          rcases h2 with ⟨hww, _⟩ | ⟨_, hr⟩
          · exact absurd hww (by simp [hwf])
          · exact Or.inl hr
    · obtain ⟨hbk, hwk, _, _, _, _, _, _, _, _, hck, _⟩ := hfk
      rw [hbk] at he hq1 hq2
      refine Or.inr ⟨(r, c - 2), he, rfl, ?_, ?_, Or.inr ⟨rfl, hq1, hq2⟩⟩
      · intro hwt
        rcases h3 with ⟨_, hr⟩ | ⟨hnw, _⟩
        · rw [hck] at hr
          exact Or.inr hr
        · rw [hwk] at hnw
          exact absurd hwt (by simpa using hnw)
      · intro hwf
        rcases h3 with ⟨hww, _⟩ | ⟨_, hr⟩
        · rw [hwk] at hww
          exact absurd hww (by simp [hwf])
        · rw [hck] at hr
          exact Or.inr hr
  · rcases getKingSideCastleMoves_shape s r c moves m hm with h0 | ⟨he, hk1, hk2⟩
    · exact Or.inl h0
    · refine Or.inr ⟨(r, c + 2), he, rfl, ?_, ?_, Or.inl ⟨rfl, hk1, hk2⟩⟩
      · intro hwt
        rcases h2 with ⟨_, hr⟩ | ⟨hnw, _⟩
        · exact Or.inl hr
        · exact absurd hwt (by simpa using hnw)
      · intro hwf
        rcases h2 with ⟨hww, _⟩ | ⟨_, hr⟩
        · exact absurd hww (by simp [hwf])
        · exact Or.inl hr
  · rcases getQueenSideCastleMoves_shape s r c moves m hm with h | ⟨he, hq1, hq2⟩
    · exact Or.inl h
    · refine Or.inr ⟨(r, c - 2), he, rfl, ?_, ?_, Or.inr ⟨rfl, hq1, hq2⟩⟩
      · intro hwt
        rcases h4 with ⟨_, hr⟩ | ⟨hnw, _⟩
        · exact Or.inr hr
        · exact absurd hwt (by simpa using hnw)
      · intro hwf
        rcases h4 with ⟨hww, _⟩ | ⟨_, hr⟩
        · exact absurd hww (by simp [hwf])
        · exact Or.inr hr
  · exact Or.inl hm

theorem gvmGenerate_shape (s : GameState) (hd : Dims8 s.board) :
    ∀ m ∈ (gvmGenerate s).1, PlainOk s m ∨ EpOk s m := by
  intro m hm
  simp only [gvmGenerate] at hm
  split_ifs at hm
  all_goals try dsimp only at hm
  all_goals
    first
      | exact getAllPossibleMoves_shape s hd m hm
      | exact getAllPossibleMoves_shape s hd m (runFilter_subset _ _ _ m hm)
      | (rcases getKingMove_shape s _ _ [] m hm with h | ⟨en, heq, hle⟩
         · exact absurd h (List.not_mem_nil m)
         · refine Or.inl ⟨_, en, false, heq, ?_⟩
           intro _ h2
           dsimp only at h2
           omega)

theorem getKingMove_caches (st : GameState) (r c : Int) (moves : List Move) :
    ((getKingMove st r c moves).2.whiteKingLocation = st.whiteKingLocation ∨
      ((getKingMove st r c moves).2.whiteKingLocation = (r, c) ∧
        st.whiteToMove = true)) ∧
    ((getKingMove st r c moves).2.blackKingLocation = st.blackKingLocation ∨
      ((getKingMove st r c moves).2.blackKingLocation = (r, c) ∧
        st.whiteToMove = false)) := by
  unfold getKingMove
  refine foldl_invariant
    (fun acc : List Move × GameState =>
      (acc.2.whiteKingLocation = st.whiteKingLocation ∨
        (acc.2.whiteKingLocation = (r, c) ∧ st.whiteToMove = true)) ∧
      (acc.2.blackKingLocation = st.blackKingLocation ∨
        (acc.2.blackKingLocation = (r, c) ∧ st.whiteToMove = false)))
    _ (List.range 8) (moves, st) ⟨Or.inl rfl, Or.inl rfl⟩ ?_
  rintro ⟨ms, t⟩ i ⟨hwl, hbl⟩
  dsimp only
  split_ifs
  all_goals
    first
      | exact ⟨hwl, hbl⟩
      | exact ⟨Or.inr ⟨rfl, by assumption⟩, hbl⟩
      | exact ⟨hwl, Or.inr ⟨rfl, by
          simpa using (by assumption : ¬st.whiteToMove = true)⟩⟩
      | (exfalso; exact (by assumption : ¬ 'w' = 'w') rfl)
      | (exfalso; exact absurd (by assumption : 'b' = 'w') (by decide))

theorem kingSyncW_transport {s t : GameState} (hb : t.board = s.board)
    (hk : t.whiteKingLocation = s.whiteKingLocation) (h : KingSyncW s) : KingSyncW t := by
  intro r c hc
  rw [hb] at hc
  rw [hk]
  exact h r c hc

theorem kingSyncB_transport {s t : GameState} (hb : t.board = s.board)
    (hk : t.blackKingLocation = s.blackKingLocation) (h : KingSyncB s) : KingSyncB t := by
  intro r c hc
  rw [hb] at hc
  rw [hk]
  exact h r c hc

theorem getAllPossibleMoves_caches (s : GameState) (hW : KingSyncW s) (hB : KingSyncB s) :
    (getAllPossibleMoves s).2.whiteKingLocation = s.whiteKingLocation ∧
    (getAllPossibleMoves s).2.blackKingLocation = s.blackKingLocation := by
  unfold getAllPossibleMoves
  refine (foldl_invariant
    (fun acc : List Move × GameState =>
      ScanFrame s acc.2 ∧ acc.2.whiteKingLocation = s.whiteKingLocation ∧
        acc.2.blackKingLocation = s.blackKingLocation)
    _ (List.range s.board.length) ([], s) ⟨scanFrame_refl s, rfl, rfl⟩ ?_).2
  rintro ⟨ms, st⟩ rn hP
  apply foldl_invariant
    (fun acc : List Move × GameState =>
      ScanFrame s acc.2 ∧ acc.2.whiteKingLocation = s.whiteKingLocation ∧
        acc.2.blackKingLocation = s.blackKingLocation)
    _ (List.range (s.board.getD rn []).length) (ms, st) hP
  rintro ⟨ms1, st1⟩ cn ⟨hf1, hKW1, hKB1⟩
  obtain ⟨hb, hw, hml, hcm, hsm, hic, hck, hbh, hep, hel, hcr, hcl⟩ := hf1
  dsimp only [gapmCellStep]
  split_ifs with hg hp hN hB2 hR hQ hK
  all_goals
    try exact ⟨⟨hb, hw, hml, hcm, hsm, hic, hck, hbh, hep, hel, hcr, hcl⟩, hKW1, hKB1⟩
  refine ⟨getKingMove_frame _ _ _ ⟨hb, hw, hml, hcm, hsm, hic, hck, hbh, hep, hel,
    hcr, hcl⟩, ?_, ?_⟩
  · rcases (getKingMove_caches st1 (rn : Int) (cn : Int) ms1).1 with h | ⟨h, hwt⟩
    · rw [h]
      exact hKW1
    · rw [h]
      rcases hg with ⟨h1, _⟩ | ⟨_, h2w⟩
      · refine hW (rn : Int) (cn : Int) ?_
        rw [← hb]
        exact Prod.ext h1 hK
      · rw [hw] at h2w hwt
        exact absurd hwt h2w
  · rcases (getKingMove_caches st1 (rn : Int) (cn : Int) ms1).2 with h | ⟨h, hwf⟩
    · rw [h]
      exact hKB1
    · rw [h]
      rcases hg with ⟨_, h2w⟩ | ⟨h1, _⟩
      · exact absurd (hwf.symm.trans h2w) (by decide)
      · refine hB (rn : Int) (cn : Int) ?_
        rw [← hb]
        exact Prod.ext h1 hK

theorem squareUnderAttack_caches (s : GameState) (r c : Int)
    (hW : KingSyncW s) (hB : KingSyncB s) :
    (squareUnderAttack s r c).2.whiteKingLocation = s.whiteKingLocation ∧
    (squareUnderAttack s r c).2.blackKingLocation = s.blackKingLocation := by
  unfold squareUnderAttack
  dsimp only
  exact getAllPossibleMoves_caches { s with whiteToMove := !s.whiteToMove }
    (kingSyncW_transport rfl rfl hW) (kingSyncB_transport rfl rfl hB)

theorem getKingSideCastleMoves_caches (s : GameState) (r c : Int) (moves : List Move)
    (hW : KingSyncW s) (hB : KingSyncB s) :
    (getKingSideCastleMoves s r c moves).2.whiteKingLocation = s.whiteKingLocation ∧
    (getKingSideCastleMoves s r c moves).2.blackKingLocation = s.blackKingLocation := by
  have h1 := squareUnderAttack_caches s r (c + 1) hW hB
  have hf1 := squareUnderAttack_frame s r (c + 1)
  have hW1 : KingSyncW (squareUnderAttack s r (c + 1)).2 :=
    kingSyncW_transport hf1.1 h1.1 hW
  have hB1 : KingSyncB (squareUnderAttack s r (c + 1)).2 :=
    kingSyncB_transport hf1.1 h1.2 hB
  have h2 := squareUnderAttack_caches (squareUnderAttack s r (c + 1)).2 r (c + 2) hW1 hB1
  simp only [getKingSideCastleMoves]
  split_ifs
  all_goals
    first
      | exact ⟨rfl, rfl⟩
      | exact h1
      | exact ⟨h2.1.trans h1.1, h2.2.trans h1.2⟩

theorem getQueenSideCastleMoves_caches (s : GameState) (r c : Int) (moves : List Move)
    (hW : KingSyncW s) (hB : KingSyncB s) :
    (getQueenSideCastleMoves s r c moves).2.whiteKingLocation = s.whiteKingLocation ∧
    (getQueenSideCastleMoves s r c moves).2.blackKingLocation = s.blackKingLocation := by
  have h1 := squareUnderAttack_caches s r (c - 1) hW hB
  have hf1 := squareUnderAttack_frame s r (c - 1)
  have hW1 : KingSyncW (squareUnderAttack s r (c - 1)).2 :=
    kingSyncW_transport hf1.1 h1.1 hW
  have hB1 : KingSyncB (squareUnderAttack s r (c - 1)).2 :=
    kingSyncB_transport hf1.1 h1.2 hB
  have h2 := squareUnderAttack_caches (squareUnderAttack s r (c - 1)).2 r (c - 2) hW1 hB1
  simp only [getQueenSideCastleMoves]
  split_ifs
  all_goals
    first
      | exact ⟨rfl, rfl⟩
      | exact h1
      | exact ⟨h2.1.trans h1.1, h2.2.trans h1.2⟩

theorem getCastleMoves_caches (s : GameState) (r c : Int) (moves : List Move)
    (hW : KingSyncW s) (hB : KingSyncB s) :
    (getCastleMoves s r c moves).2.whiteKingLocation = s.whiteKingLocation ∧
    (getCastleMoves s r c moves).2.blackKingLocation = s.blackKingLocation := by
  have hks := getKingSideCastleMoves_caches s r c moves hW hB
  have hfk := (getKingSideCastleMoves_spec s r c moves).1
  have hWk : KingSyncW (getKingSideCastleMoves s r c moves).2 :=
    kingSyncW_transport hfk.1 hks.1 hW
  have hBk : KingSyncB (getKingSideCastleMoves s r c moves).2 :=
    kingSyncB_transport hfk.1 hks.2 hB
  simp only [getCastleMoves]
  split_ifs
  · exact ⟨rfl, rfl⟩
  all_goals
    first
      | exact ⟨rfl, rfl⟩
      | exact hks
      | exact getQueenSideCastleMoves_caches s r c moves hW hB
      | exact
          ⟨((getQueenSideCastleMoves_caches _ r c _ hWk hBk).1).trans hks.1,
            ((getQueenSideCastleMoves_caches _ r c _ hWk hBk).2).trans hks.2⟩

theorem gvmTerminalUpdate_core (s : GameState) (moves : List Move) :
    (gvmTerminalUpdate s moves).board = s.board ∧
    (gvmTerminalUpdate s moves).whiteKingLocation = s.whiteKingLocation ∧
    (gvmTerminalUpdate s moves).blackKingLocation = s.blackKingLocation ∧
    (gvmTerminalUpdate s moves).enpassantPossible = s.enpassantPossible ∧
    (gvmTerminalUpdate s moves).currentCastlingRights = s.currentCastlingRights ∧
    (gvmTerminalUpdate s moves).moveLog = s.moveLog ∧
    (gvmTerminalUpdate s moves).enpassantPossibleLog = s.enpassantPossibleLog ∧
    (gvmTerminalUpdate s moves).castleRightLog = s.castleRightLog ∧
    (gvmTerminalUpdate s moves).boardHistory = s.boardHistory := by
  simp only [gvmTerminalUpdate]
  split_ifs <;> exact ⟨rfl, rfl, rfl, rfl, rfl, rfl, rfl, rfl, rfl⟩

theorem gvmGenerate_caches (s : GameState) (hW : KingSyncW s) (hB : KingSyncB s) :
    (gvmGenerate s).2.whiteKingLocation = s.whiteKingLocation ∧
    (gvmGenerate s).2.blackKingLocation = s.blackKingLocation := by
  simp only [gvmGenerate]
  split_ifs with h1 h2
  all_goals try dsimp only
  all_goals try exact getAllPossibleMoves_caches s hW hB
  all_goals constructor
  all_goals
    first
      | (rcases (getKingMove_caches s _ _ []).1 with h | ⟨h, hwt⟩
         · exact h
         · first
             | (rw [h]; done)
             | (rw [h]; exact Prod.mk.eta)
             | exact absurd hwt (by assumption))
      | (rcases (getKingMove_caches s _ _ []).2 with h | ⟨h, hwf⟩
         · exact h
         · first
             | (rw [h]; done)
             | (rw [h]; exact Prod.mk.eta)
             | exact absurd hwf (by simp [(by assumption : s.whiteToMove = true)]))

theorem gvmCastleStage_caches (s : GameState) (moves : List Move)
    (hW : KingSyncW s) (hB : KingSyncB s) :
    (gvmCastleStage s moves).2.whiteKingLocation = s.whiteKingLocation ∧
    (gvmCastleStage s moves).2.blackKingLocation = s.blackKingLocation := by
  simp only [gvmCastleStage]
  split_ifs <;> exact getCastleMoves_caches _ _ _ _ hW hB

theorem getValidMoves_eq (s : GameState) :
    getValidMoves s =
      gvmCastleStage
        (gvmTerminalUpdate (gvmGenerate (gvmAnalyzed s)).2 (gvmGenerate (gvmAnalyzed s)).1)
        (gvmGenerate (gvmAnalyzed s)).1 := rfl

theorem plainOk_transport {sA sB : GameState} {m : Move}
    (hb : sB.board = sA.board) (hw : sB.whiteToMove = sA.whiteToMove)
    (h : PlainOk sA m) : PlainOk sB m := by
  obtain ⟨st, en, pp, heq, hcl⟩ := h
  refine ⟨st, en, pp, by rw [hb]; exact heq, ?_⟩
  rw [hb, hw]
  exact hcl

theorem epOk_transport {sA sB : GameState} {m : Move}
    (hb : sB.board = sA.board) (hw : sB.whiteToMove = sA.whiteToMove)
    (hep : sB.enpassantPossible = sA.enpassantPossible)
    (h : EpOk sA m) : EpOk sB m := by
  obtain ⟨st, en, heq, he, hwc, hbc, hcol⟩ := h
  exact ⟨st, en, by rw [hb]; exact heq, by rw [hep]; exact he,
    by rw [hb, hw]; exact hwc, by rw [hb, hw]; exact hbc, hcol⟩

theorem castleOk_transport {sA sB : GameState} {m : Move}
    (hb : sB.board = sA.board) (hw : sB.whiteToMove = sA.whiteToMove)
    (hr : sB.currentCastlingRights = sA.currentCastlingRights)
    (hkw : sB.whiteKingLocation = sA.whiteKingLocation)
    (hkb : sB.blackKingLocation = sA.blackKingLocation)
    (h : CastleOk sA m) : CastleOk sB m := by
  obtain ⟨st, en, heq, he1, hwc, hbc, hdisj⟩ := h
  exact ⟨st, en, by rw [hb]; exact heq, he1,
    by rw [hw, hr, hkw]; exact hwc, by rw [hw, hr, hkb]; exact hbc,
    by rw [hb]; exact hdisj⟩

theorem gvmCastleStage_shape (sT : GameState) (moves : List Move) :
    ∀ m ∈ (gvmCastleStage sT moves).1, m ∈ moves ∨ CastleOk sT m := by
  intro m hm
  simp only [gvmCastleStage] at hm
  split_ifs at hm with hw
  · rcases getCastleMoves_shape sT _ _ moves m hm with h | ⟨en, heq, he1, hgw, _, hdisj⟩
    · exact Or.inl h
    · refine Or.inr ⟨(sT.whiteKingLocation.1, sT.whiteKingLocation.2), en, heq, he1, ?_, ?_,
        hdisj⟩
      · intro _
        exact ⟨Prod.mk.eta, hgw hw⟩
      · intro hwf
        rw [hwf] at hw
        exact absurd hw (by decide)
  · rcases getCastleMoves_shape sT _ _ moves m hm with h | ⟨en, heq, he1, _, hgb, hdisj⟩
    · exact Or.inl h
    · have hwf : sT.whiteToMove = false := by
        rcases hww : sT.whiteToMove with _ | _
        · rfl
        · exact absurd hww hw
      refine Or.inr ⟨(sT.blackKingLocation.1, sT.blackKingLocation.2), en, heq, he1, ?_, ?_,
        hdisj⟩
      · intro hwt
        rw [hwt] at hwf
        exact absurd hwf (by decide)
      · intro _
        exact ⟨Prod.mk.eta, hgb hwf⟩

theorem gvm_caches (s : GameState) (hW : KingSyncW s) (hB : KingSyncB s) :
    (getValidMoves s).2.whiteKingLocation = s.whiteKingLocation ∧
    (getValidMoves s).2.blackKingLocation = s.blackKingLocation := by
  rw [getValidMoves_eq]
  have hWA : KingSyncW (gvmAnalyzed s) := kingSyncW_transport rfl rfl hW
  have hBA : KingSyncB (gvmAnalyzed s) := kingSyncB_transport rfl rfl hB
  have hgc := gvmGenerate_caches (gvmAnalyzed s) hWA hBA
  have hgf := gvmGenerate_frame (gvmAnalyzed s)
  have htc := gvmTerminalUpdate_core (gvmGenerate (gvmAnalyzed s)).2
    (gvmGenerate (gvmAnalyzed s)).1
  have hTb : (gvmTerminalUpdate (gvmGenerate (gvmAnalyzed s)).2
      (gvmGenerate (gvmAnalyzed s)).1).board = s.board := htc.1.trans hgf.1
  have hTw : (gvmTerminalUpdate (gvmGenerate (gvmAnalyzed s)).2
      (gvmGenerate (gvmAnalyzed s)).1).whiteKingLocation = s.whiteKingLocation :=
    htc.2.1.trans hgc.1
  have hTbk : (gvmTerminalUpdate (gvmGenerate (gvmAnalyzed s)).2
      (gvmGenerate (gvmAnalyzed s)).1).blackKingLocation = s.blackKingLocation :=
    htc.2.2.1.trans hgc.2
  have hWT := kingSyncW_transport hTb hTw hW
  have hBT := kingSyncB_transport hTb hTbk hB
  have hcc := gvmCastleStage_caches _ (gvmGenerate (gvmAnalyzed s)).1 hWT hBT
  exact ⟨hcc.1.trans hTw, hcc.2.trans hTbk⟩

theorem gvm_core (s : GameState) :
    (getValidMoves s).2.board = s.board ∧
    (getValidMoves s).2.whiteToMove = s.whiteToMove ∧
    (getValidMoves s).2.enpassantPossible = s.enpassantPossible ∧
    (getValidMoves s).2.currentCastlingRights = s.currentCastlingRights ∧
    (getValidMoves s).2.moveLog = s.moveLog ∧
    (getValidMoves s).2.enpassantPossibleLog = s.enpassantPossibleLog ∧
    (getValidMoves s).2.castleRightLog = s.castleRightLog ∧
    (getValidMoves s).2.boardHistory = s.boardHistory := by
  rw [getValidMoves_eq]
  obtain ⟨gb, gw, gml, _, _, _, _, gbh, gep, gel, gcr, gcl⟩ :=
    gvmGenerate_frame (gvmAnalyzed s)
  obtain ⟨tb, _, _, tep, tcr, tml, tel, tcl, tbh⟩ :=
    gvmTerminalUpdate_core (gvmGenerate (gvmAnalyzed s)).2 (gvmGenerate (gvmAnalyzed s)).1
  have htw := (gvmTerminalUpdate_misc (gvmGenerate (gvmAnalyzed s)).2
    (gvmGenerate (gvmAnalyzed s)).1).2
  obtain ⟨cb, cw, cml, _, _, _, _, cbh, cep, cel, ccr, ccl⟩ :=
    (gvmCastleStage_spec (gvmTerminalUpdate (gvmGenerate (gvmAnalyzed s)).2
      (gvmGenerate (gvmAnalyzed s)).1) (gvmGenerate (gvmAnalyzed s)).1).1
  exact ⟨cb.trans (tb.trans gb), cw.trans (htw.trans gw), cep.trans (tep.trans gep),
    ccr.trans (tcr.trans gcr), cml.trans (tml.trans gml), cel.trans (tel.trans gel),
    ccl.trans (tcl.trans gcl), cbh.trans (tbh.trans gbh)⟩

theorem gvm_moves_shape (s : GameState) (hd : Dims8 s.board)
    (hW : KingSyncW s) (hB : KingSyncB s) :
    ∀ m ∈ (getValidMoves s).1, MoveOk s m := by
  intro m hm
  rw [getValidMoves_eq] at hm
  have hgf := gvmGenerate_frame (gvmAnalyzed s)
  have htc := gvmTerminalUpdate_core (gvmGenerate (gvmAnalyzed s)).2
    (gvmGenerate (gvmAnalyzed s)).1
  have htw := (gvmTerminalUpdate_misc (gvmGenerate (gvmAnalyzed s)).2
    (gvmGenerate (gvmAnalyzed s)).1).2
  have hWA : KingSyncW (gvmAnalyzed s) := kingSyncW_transport rfl rfl hW
  have hBA : KingSyncB (gvmAnalyzed s) := kingSyncB_transport rfl rfl hB
  have hgc := gvmGenerate_caches (gvmAnalyzed s) hWA hBA
  rcases gvmCastleStage_shape _ _ m hm with h | h
  · rcases gvmGenerate_shape (gvmAnalyzed s) hd m h with hpl | hep
    · exact Or.inl (plainOk_transport rfl rfl hpl)
    · exact Or.inr (Or.inl (epOk_transport rfl rfl rfl hep))
  · refine Or.inr (Or.inr (castleOk_transport ?_ ?_ ?_ ?_ ?_ h))
    · exact (htc.1.trans hgf.1).symm
    · exact (htw.trans hgf.2.1).symm
    · exact (htc.2.2.2.2.1.trans hgf.2.2.2.2.2.2.2.2.2.2.1).symm
    · exact (htc.2.1.trans hgc.1).symm
    · exact (htc.2.2.1.trans hgc.2).symm

theorem getSq_oob (b : Board) (hd : Dims8 b) (r c : Int)
    (h : ¬(0 ≤ r ∧ r < 8 ∧ 0 ≤ c ∧ c < 8)) : getSq b r c = emptyCell := by
  unfold getSq
  split_ifs with h1
  · by_cases hr : r < 8
    · have hrL : r.toNat < b.length := by
        rw [hd.1]
        omega
      have hrow := hd.2 _ (listGetD_mem b r.toNat [] hrL)
      have hc8 : 8 ≤ c := by omega
      apply List.getD_eq_default
      rw [hrow]
      omega
    · have hnil : b.getD r.toNat [] = [] := by
        apply List.getD_eq_default
        rw [hd.1]
        omega
      rw [hnil]
      rfl
  · rfl

theorem kingSyncW_of_check (s : GameState) (hd : Dims8 s.board)
    (hchk : ∀ rn ∈ List.range 8, ∀ cn ∈ List.range 8,
      getSq s.board (rn : Int) (cn : Int) = ('w', 'K') →
        (((rn : Int), (cn : Int)) : Int × Int) = s.whiteKingLocation) :
    KingSyncW s := by
  intro r c h
  by_cases hin : 0 ≤ r ∧ r < 8 ∧ 0 ≤ c ∧ c < 8
  · have h2 := hchk r.toNat (List.mem_range.mpr (by omega)) c.toNat
      (List.mem_range.mpr (by omega))
    rw [Int.toNat_of_nonneg hin.1, Int.toNat_of_nonneg hin.2.2.1] at h2
    exact h2 h
  · rw [getSq_oob s.board hd r c hin] at h
    exact absurd h (by decide)

theorem kingSyncB_of_check (s : GameState) (hd : Dims8 s.board)
    (hchk : ∀ rn ∈ List.range 8, ∀ cn ∈ List.range 8,
      getSq s.board (rn : Int) (cn : Int) = ('b', 'K') →
        (((rn : Int), (cn : Int)) : Int × Int) = s.blackKingLocation) :
    KingSyncB s := by
  intro r c h
  by_cases hin : 0 ≤ r ∧ r < 8 ∧ 0 ≤ c ∧ c < 8
  · have h2 := hchk r.toNat (List.mem_range.mpr (by omega)) c.toNat
      (List.mem_range.mpr (by omega))
    rw [Int.toNat_of_nonneg hin.1, Int.toNat_of_nonneg hin.2.2.1] at h2
    exact h2 h
  · rw [getSq_oob s.board hd r c hin] at h
    exact absurd h (by decide)

theorem epInv_transport {sA sB : GameState}
    (hb : sB.board = sA.board) (hw : sB.whiteToMove = sA.whiteToMove)
    (hep : sB.enpassantPossible = sA.enpassantPossible)
    (h : EPInv sA) : EPInv sB := by
  intro er ec hsome
  rw [hep] at hsome
  rw [hb, hw]
  exact h er ec hsome

/-- The amended C3 statement, proved for every state satisfying the
representation invariants the engine maintains during normal play. -/
theorem C3_undo_restores_after_valid_move (s : GameState)
    (hd : Dims8 s.board) (hW : KingSyncW s) (hB : KingSyncB s)
    (hrw : RightsHomeW s) (hrb : RightsHomeB s) (hep : EPInv s)
    (hcr : s.castleRightLog.getLast? = some s.currentCastlingRights)
    (hel : s.enpassantPossibleLog.getLast? = some s.enpassantPossible)
    (m : Move) (hm : m ∈ (getValidMoves s).1) :
    RestoreSpec (getValidMoves s).2 m := by
  obtain ⟨cb, cw, cep, ccr, cml, cel, ccl, cbh⟩ := gvm_core s
  obtain ⟨ckw, ckb⟩ := gvm_caches s hW hB
  have hok : MoveOk s m := gvm_moves_shape s hd hW hB m hm
  have hok2 : MoveOk (getValidMoves s).2 m := by
    rcases hok with h | h | h
    · exact Or.inl (plainOk_transport cb cw h)
    · exact Or.inr (Or.inl (epOk_transport cb cw cep h))
    · exact Or.inr (Or.inr (castleOk_transport cb cw ccr ckw ckb h))
  refine restore_of_moveOk _ m hok2 ?_ ?_ ?_ ?_ ?_ ?_ ?_ ?_
  · rw [cb]
    exact hd
  · exact epInv_transport cb cw cep hep
  · exact kingSyncW_transport cb ckw hW
  · exact kingSyncB_transport cb ckb hB
  · intro h
    rw [ccr] at h
    rw [ckw]
    exact hrw h
  · intro h
    rw [ccr] at h
    rw [ckb]
    exact hrb h
  · rw [ccl, ccr]
    exact hcr
  · rw [cel, cep]
    exact hel

/-- Counterexample to C3 as stated over every position: on the inconsistent
en-passant position the board is not restored by `undoMove`. -/
theorem C3_undo_misrestores_board_on_inconsistent_ep :
    mEpX ∈ (getValidMoves sEpX).1 ∧
    (undoMove (makeMove (getValidMoves sEpX).2 mEpX)).board ≠
      (getValidMoves sEpX).2.board := by decide

theorem C3_undo_restores_after_valid_move_witness :
    witMove ∈ (getValidMoves initialGameState).1 ∧
    RestoreSpec (getValidMoves initialGameState).2 witMove :=
  ⟨by decide,
    C3_undo_restores_after_valid_move initialGameState ⟨by decide, by decide⟩
      (kingSyncW_of_check _ ⟨by decide, by decide⟩ (by decide))
      (kingSyncB_of_check _ ⟨by decide, by decide⟩ (by decide))
      (fun _ => rfl) (fun _ => rfl)
      (fun er ec h => Option.noConfusion h)
      rfl rfl witMove (by decide)⟩

theorem scanFrame_pins (s : GameState) (p : List Pin) :
    ScanFrame s { s with pins := p } := by
  simp [ScanFrame]

/-- A legal played line starting at a reachable state ends at a reachable state. -/
theorem reachable_playMoves :
    ∀ (seq : List (Int × Int × Int × Int)) (s : GameState),
      Reachable s → playLegal s seq = true → Reachable (playMoves s seq)
  | [], s, hs, _ => hs
  | (sr, sc, er, ec) :: rest, s, hs, h => by
    rw [playLegal, Bool.and_eq_true] at h
    exact reachable_playMoves rest _
      (Reachable.step s (plainMove s sr sc er ec) hs (of_decide_eq_true h.1)) h.2

theorem reachable_sPin : Reachable sPin :=
  reachable_playMoves pinSequence initialGameState Reachable.init (by decide)

theorem reachable_sMate : Reachable sMate :=
  reachable_playMoves mateSequence initialGameState Reachable.init (by decide)

theorem reachable_sRep : Reachable sRep :=
  reachable_playMoves repSequence initialGameState Reachable.init (by decide)

/-- C1: in the reachable position after 1.d4 e6 2.Qd2 Bb4 the white queen on
d2 is pinned on the e1-b4 diagonal, yet `getValidMoves` returns the move
Qd2-d3, and playing it with `makeMove` leaves White's own king attacked by
the bishop on b4 — contradicting the claim that no returned move ever leaves
the mover's king attacked.  (`getBishopMove` consumes the queen's pin entry
before `getRockMove` looks for it, so the rook-ray part of the queen moves
ignores the pin.) -/
theorem C1_pinned_queen_moves_into_check :
    Reachable sPin ∧
    queenD3Move ∈ (getValidMoves sPin).1 ∧
    kingAttacked (makeMove (getValidMoves sPin).2 queenD3Move) true = true :=
  ⟨reachable_sPin, by decide, by decide⟩

/-- C7: the position fingerprint used as the transposition-table key and as
the position-history entry is determined by the board array and the side to
move alone; castling rights and the en-passant target do not enter it. -/
theorem C7_fingerprint_ignores_rights_and_ep (s t : GameState)
    (hb : s.board = t.board) (hw : s.whiteToMove = t.whiteToMove) :
    boardHashOf s = boardHashOf t := by
  simp [boardHashOf, hb, hw]

/-- Witness for C7: two states that differ in castling rights and en-passant
target but share board and side to move have the same fingerprint. -/
theorem C7_fingerprint_ignores_rights_and_ep_witness :
    boardHashOf initialGameState = boardHashOf sRightsAltered ∧
    initialGameState.currentCastlingRights ≠ sRightsAltered.currentCastlingRights ∧
    initialGameState.enpassantPossible ≠ sRightsAltered.enpassantPossible :=
  ⟨C7_fingerprint_ignores_rights_and_ep initialGameState sRightsAltered (by decide) (by decide),
    by decide, by decide⟩

/-- C2, counterexample: in the reachable position reached by repeating the
starting position a third time, `getValidMoves` returns a non-empty move list
yet sets the stalemate flag (the threefold-repetition draw), so the returned
list being empty is not equivalent to checkmate-or-stalemate. -/
theorem C2_repetition_flag_with_nonempty_moves :
    Reachable sRep ∧
    ¬(((getValidMoves sRep).1 = []) ↔
      ((getValidMoves sRep).2.checkmate = true ∨ (getValidMoves sRep).2.stalemate = true)) :=
  ⟨reachable_sRep, by decide⟩

/-- C2, amended: the direction that does hold for every state: when
`getValidMoves` returns an empty list, the checkmate or the stalemate flag
has been set; the converse direction fails (threefold repetition sets the
stalemate flag with a non-empty returned list). -/
theorem C2_empty_implies_terminal_flag (s : GameState)
    (h : (getValidMoves s).1 = []) :
    (getValidMoves s).2.checkmate = true ∨ (getValidMoves s).2.stalemate = true :=
  gvm_tail_empty
    { s with
      inCheck := (checkForPinsAndChecks s).1
      pins := (checkForPinsAndChecks s).2.1
      checks := (checkForPinsAndChecks s).2.2 } h

/-- Witness for the amended C2 at the concrete checkmated position. -/
theorem C2_empty_implies_terminal_flag_witness :
    (getValidMoves sMate).1 = [] ∧
    ((getValidMoves sMate).2.checkmate = true ∨ (getValidMoves sMate).2.stalemate = true) :=
  ⟨by decide, C2_empty_implies_terminal_flag sMate (by decide)⟩

/-- Witness for C6: the reachable position repeating the starting position a
third time, where twenty legal moves exist and the draw flag is set. -/
theorem C6_threefold_repetition_sets_draw_witness :
    3 ≤ sRep.boardHistory.count (boardHashOf sRep) ∧
    (getValidMoves sRep).1 ≠ [] ∧
    (getValidMoves sRep).2.stalemate = true :=
  ⟨by decide, by decide,
    C6_threefold_repetition_sets_draw sRep reachable_sRep (by decide) (by decide)⟩

/-- C4, counterexample: in the reachable checkmated position after
1.e4 g5 2.d4 f6 3.Qh5 the legal move set is empty, yet `findBestMoveMinMax`
returns the opening-book move e7-e5 instead of no move, because the book is
consulted before the legal set is examined. -/
theorem C4_book_move_returned_in_checkmate :
    Reachable sMate ∧ (getValidMoves sMate).1 = [] ∧
    findBestMoveMinMax sMate [] 3 = some (plainMove sMate 1 4 3 4) ∧
    findBestMoveMinMax sMate [] 3 ≠ none :=
  ⟨reachable_sMate, by decide, by decide, by decide⟩

/-- C4, amended: when the legal move set is empty and the opening book finds
no pattern, `findBestMoveMinMax` places no move on the return queue. -/
theorem C4_none_when_no_moves_and_book_misses (s : GameState) (d : Nat)
    (h : findOpeningMove s = none) :
    findBestMoveMinMax s [] d = none := by
  unfold findBestMoveMinMax
  rw [h]
  cases d with
  | zero => rfl
  | succ n => rfl

/-- Witness for the amended C4: a concrete quiet position where the book
misses and the search over an empty move list returns no move. -/
theorem C4_none_when_no_moves_and_book_misses_witness :
    findOpeningMove sC5 = none ∧ findBestMoveMinMax sC5 [] 1 = none :=
  ⟨by decide, C4_none_when_no_moves_and_book_misses sC5 1 (by decide)⟩

/-- C5, counterexample: `findBestMoveMinMax` shuffles the caller's move list
internally (`random.shuffle(validMoves)`); modelling the two invocations'
shuffle outcomes as two permutations of the same fixed legal move list, the
search returns different best moves, so two invocations on the same position,
move list and depth need not agree. -/
theorem C5_internal_shuffle_changes_result :
    ((getValidMoves sC5).1.reverse).Perm (getValidMoves sC5).1 ∧
    findBestMoveMinMax sC5 (getValidMoves sC5).1 1 ≠
      findBestMoveMinMax sC5 (getValidMoves sC5).1.reverse 1 :=
  ⟨((getValidMoves sC5).1).reverse_perm, by decide⟩

/-- C5, amended: apart from the internal random shuffle the search is pure,
so two invocations whose shuffle outcomes coincide return the same result
(each invocation starts from a freshly cleared transposition table). -/
theorem C5_deterministic_for_fixed_shuffle (gs : GameState) (ms1 ms2 : List Move)
    (d : Nat) (h : ms1 = ms2) :
    findBestMoveMinMax gs ms1 d = findBestMoveMinMax gs ms2 d := by
  rw [h]

/-- Witness for the amended C5 at a concrete position and depth. -/
theorem C5_deterministic_for_fixed_shuffle_witness :
    findBestMoveMinMax sC5 (getValidMoves sC5).1 1 =
      findBestMoveMinMax sC5 (getValidMoves sC5).1 1 :=
  C5_deterministic_for_fixed_shuffle sC5 (getValidMoves sC5).1 (getValidMoves sC5).1 1 rfl

theorem rightsLe_trans {a b c : CastleRights} (h1 : rightsLe a b) (h2 : rightsLe b c) :
    rightsLe a c :=
  ⟨fun h => h2.1 (h1.1 h), fun h => h2.2.1 (h1.2.1 h),
    fun h => h2.2.2.1 (h1.2.2.1 h), fun h => h2.2.2.2 (h1.2.2.2 h)⟩

/-- The source's `updateCastlRights` only ever assigns `False` to a right. -/
theorem updateCastlRightsFn_le (c : CastleRights) (m : Move) :
    rightsLe (updateCastlRightsFn c m) c := by
  unfold updateCastlRightsFn rightsLe
  split_ifs <;> simp_all

theorem makeMove_rights_eq (s : GameState) (m : Move) :
    (makeMove s m).currentCastlingRights = updateCastlRightsFn s.currentCastlingRights m :=
  rfl

/-- C8: along any forward sequence of `makeMove` calls each of the four
castling-right booleans is monotonically non-increasing: `makeMove` and
`updateCastlRights` may revoke a right but never restore one. -/
theorem C8_castling_rights_monotone :
    (∀ (s : GameState) (m : Move),
      rightsLe (makeMove s m).currentCastlingRights s.currentCastlingRights) ∧
    (∀ (s : GameState) (m : Move),
      rightsLe (updateCastlRights s m).currentCastlingRights s.currentCastlingRights) ∧
    (∀ (s : GameState) (ms : List Move),
      rightsLe ((ms.foldl makeMove s).currentCastlingRights) s.currentCastlingRights) := by
  refine ⟨fun s m => ?_, fun s m => updateCastlRightsFn_le _ _, fun s ms => ?_⟩
  · rw [makeMove_rights_eq]
    exact updateCastlRightsFn_le _ _
  · induction ms generalizing s with
    | nil => exact ⟨id, id, id, id⟩
    | cons m ms ih =>
      refine rightsLe_trans (ih (makeMove s m)) ?_
      rw [makeMove_rights_eq]
      exact updateCastlRightsFn_le _ _

/-- Witness for C8: concrete instances of all three parts, with the
right-held hypotheses discharged at 1.e4 from the initial position. -/
theorem C8_castling_rights_monotone_witness :
    initialGameState.currentCastlingRights.wks = true ∧
    initialGameState.currentCastlingRights.bks = true ∧
    initialGameState.currentCastlingRights.wqs = true :=
  ⟨(C8_castling_rights_monotone.1 initialGameState witMove).1 (by decide),
    (C8_castling_rights_monotone.2.1 initialGameState witMove).2.1 (by decide),
    (C8_castling_rights_monotone.2.2 initialGameState [witMove]).2.2.1 (by decide)⟩

theorem undoMove_nil {s : GameState} (h : s.moveLog = []) : undoMove s = s := by
  unfold undoMove
  rw [h]
  rfl

theorem makeMove_log_lengths (s : GameState) (m : Move) :
    (makeMove s m).moveLog.length = s.moveLog.length + 1 ∧
    (makeMove s m).castleRightLog.length = s.castleRightLog.length + 1 ∧
    (makeMove s m).enpassantPossibleLog.length = s.enpassantPossibleLog.length + 1 ∧
    (makeMove s m).boardHistory.length = s.boardHistory.length + 1 := by
  simp [makeMove]

theorem undoMove_log_lengths (s : GameState) (h : s.moveLog ≠ []) (hs : LogsSync s) :
    (undoMove s).moveLog.length = s.moveLog.length - 1 ∧
    (undoMove s).castleRightLog.length = s.castleRightLog.length - 1 ∧
    (undoMove s).enpassantPossibleLog.length = s.enpassantPossibleLog.length - 1 ∧
    (undoMove s).boardHistory.length = s.boardHistory.length - 1 := by
  have hm : s.moveLog.getLast?.isSome := List.getLast?_isSome.mpr h
  obtain ⟨m, hm⟩ := Option.isSome_iff_exists.mp hm
  have hbh : 0 < s.boardHistory.length := by
    rw [hs.2.2]
    exact List.length_pos.mpr h
  unfold undoMove
  rw [hm]
  simp [List.length_dropLast, hbh]

theorem logsSync_make (s : GameState) (m : Move) (hs : LogsSync s) :
    LogsSync (makeMove s m) := by
  obtain ⟨h1, h2, h3, h4⟩ := makeMove_log_lengths s m
  obtain ⟨g1, g2, g3⟩ := hs
  exact ⟨by omega, by omega, by omega⟩

theorem logsSync_undo (s : GameState) (hs : LogsSync s) : LogsSync (undoMove s) := by
  by_cases h : s.moveLog = []
  · rw [undoMove_nil h]
    exact hs
  · obtain ⟨h1, h2, h3, h4⟩ := undoMove_log_lengths s h hs
    obtain ⟨g1, g2, g3⟩ := hs
    have hpos : 0 < s.moveLog.length := List.length_pos.mpr h
    exact ⟨by omega, by omega, by omega⟩

theorem logsSync_run : ∀ (ops : List HistOp) (s : GameState),
    LogsSync s → LogsSync (runHistOps s ops)
  | [], _, hs => hs
  | HistOp.apply m :: rest, s, hs => logsSync_run rest _ (logsSync_make s m hs)
  | HistOp.undo :: rest, s, hs => logsSync_run rest _ (logsSync_undo s hs)

/-- C10: over every sequence of `makeMove` and `undoMove` calls from the
initial state the history structures stay in lockstep with the move log
(`len(castleRightLog) = len(moveLog) + 1`, `len(enpassantPossibleLog) =
len(moveLog) + 1`, `len(boardHistory) = len(moveLog)`); every `makeMove`
appends exactly one entry to each and every non-empty `undoMove` removes
exactly one entry from each. -/
theorem C10_logs_in_lockstep :
    (∀ ops : List HistOp, LogsSync (runHistOps initialGameState ops)) ∧
    (∀ (s : GameState) (m : Move),
      (makeMove s m).moveLog.length = s.moveLog.length + 1 ∧
      (makeMove s m).castleRightLog.length = s.castleRightLog.length + 1 ∧
      (makeMove s m).enpassantPossibleLog.length = s.enpassantPossibleLog.length + 1 ∧
      (makeMove s m).boardHistory.length = s.boardHistory.length + 1) ∧
    (∀ s : GameState, s.moveLog ≠ [] → LogsSync s →
      (undoMove s).moveLog.length = s.moveLog.length - 1 ∧
      (undoMove s).castleRightLog.length = s.castleRightLog.length - 1 ∧
      (undoMove s).enpassantPossibleLog.length = s.enpassantPossibleLog.length - 1 ∧
      (undoMove s).boardHistory.length = s.boardHistory.length - 1) :=
  ⟨fun ops => logsSync_run ops initialGameState ⟨rfl, rfl, rfl⟩,
    makeMove_log_lengths, undoMove_log_lengths⟩

/-- Witness for C10: one apply-undo round trip from the initial state, and
the per-step length changes at 1.e4. -/
theorem C10_logs_in_lockstep_witness :
    LogsSync (runHistOps initialGameState [HistOp.apply witMove, HistOp.undo]) ∧
    (makeMove initialGameState witMove).moveLog.length =
      initialGameState.moveLog.length + 1 ∧
    (undoMove (makeMove initialGameState witMove)).moveLog.length =
      (makeMove initialGameState witMove).moveLog.length - 1 :=
  ⟨C10_logs_in_lockstep.1 [HistOp.apply witMove, HistOp.undo],
    (C10_logs_in_lockstep.2.1 initialGameState witMove).1,
    (C10_logs_in_lockstep.2.2 (makeMove initialGameState witMove) (by decide)
      ⟨rfl, rfl, rfl⟩).1⟩

/-- C9: calling `undoMove` on a state whose move log is empty changes
nothing: the guard `len(self.moveLog) != 0` makes it a safe no-op. -/
theorem C9_undo_on_empty_log_is_noop (s : GameState) (h : s.moveLog = []) :
    undoMove s = s := by
  unfold undoMove
  rw [h]
  rfl

/-- Witness for C9: the initial state has an empty move log and `undoMove`
returns it unchanged. -/
theorem C9_undo_on_empty_log_is_noop_witness :
    initialGameState.moveLog = [] ∧ undoMove initialGameState = initialGameState :=
  ⟨rfl, C9_undo_on_empty_log_is_noop initialGameState rfl⟩

end Chess
